import Mathlib

/-!
# Verification of the SkyWalking trace collector (trace_collector.py)

This file gives a shallow embedding of the trace retrieval and
reconstruction engine of `TT_collection-scripts/T-Dataset/trace_collector.py`
and settles the specification claims about it.

Modelling conventions:

* Python dicts used as records (`span.get(key)`) become Lean structures whose
  fields are `Option`-typed when the source handles an absent or `null` value
  (`span.get("segmentId")` can return `None`), and plainly typed when the
  source always supplies a value.
* Python dicts used as mappings (`nodes`, `parents`, `children`, `depths`)
  become insertion-ordered association lists (`Dict` below) with
  last-write-wins update, mirroring CPython dict semantics (a key keeps its
  original position when its value is overwritten, new keys append).
* The in-place mutation `span["_node_id"] = node_id` of stage 1 of
  `_build_span_records` is modelled by the extra field `nodeIdField` of
  `RawSpan`; raw spans as returned by the backend do not carry the key,
  which is expressed as `nodeIdField = none`.
* The breadth-first depth computation of `_build_span_records` is a `while`
  loop over a mutable queue with no visited guard; it is embedded with an
  explicit fuel parameter (`bfsDepths`), `none` meaning the loop has not
  finished within the given fuel.  All other parts of the algorithm are
  structurally recursive and total.
* Machine integers are modelled as `Int` (timestamps, ids, durations) and
  loop counters as `Nat`; Python ints are unbounded, so no wrap-around
  modelling is needed.
* Network I/O is abstracted as function parameters: the paginated
  trace-summary query becomes `backend : Nat → List TraceEntry × Int`
  (page number to reported page content and total), and per-trace span
  fetching becomes `fetchSpans : String → Except String (List RawSpan)`
  (an `Except.error` models a raised exception inside the worker).
-/

/-- A SkyWalking cross-segment reference record
(`refs { traceId parentSegmentId parentSpanId type }` in the GraphQL query).
The hierarchy code reads `ref.get("parentSegmentId")` and
`ref.get("parentSpanId")`, which may be absent or null, hence `Option`. -/
structure SpanRef where
  parentTraceId : Option String := none
  parentSegmentId : Option String := none
  parentSpanId : Option Int := none
  refType : Option String := none
  deriving Repr, DecidableEq

/-- One key/value tag pair (`tags { key value }`). -/
structure TagPair where
  key : String
  value : Option String := none
  deriving Repr, DecidableEq

/-- One span log entry (`logs { time data { key value } }`). -/
structure LogEntry where
  time : Int
  data : List TagPair := []
  deriving Repr, DecidableEq

/-- A raw span dictionary as returned by the trace-detail GraphQL query.
Fields the code reads through `.get` (which may yield `None`) are
`Option`-typed.  `nodeIdField` models the `"_node_id"` key written in place
by stage 1 of `_build_span_records`; backend data never carries it, which
corresponds to `nodeIdField = none`. -/
structure RawSpan where
  traceId : Option String := none
  segmentId : Option String := none
  spanId : Option Int := none
  parentSpanId : Option Int := none
  serviceCode : Option String := none
  serviceInstanceName : Option String := none
  startTime : Option Int := none
  endTime : Option Int := none
  endpointName : Option String := none
  spanType : Option String := none
  peer : Option String := none
  component : Option String := none
  isError : Bool := false
  layer : Option String := none
  tags : List TagPair := []
  logs : List LogEntry := []
  refs : List SpanRef := []
  nodeIdField : Option String := none
  deriving Repr, DecidableEq

/-- The `SpanRecord` dataclass.  Field types follow what
`_build_span_records` actually passes (values obtained through `.get`
may be `None`, hence `Option`); `depth` counts BFS levels starting at 0. -/
structure SpanRecord where
  node_id : String
  trace_id : Option String
  segment_id : Option String
  span_id : Option Int
  parent_span_id : Option Int
  parent_node_id : Option String
  service_code : Option String
  service_instance : Option String
  start_ms : Int
  end_ms : Int
  endpoint_name : Option String
  span_type : Option String
  peer : Option String
  component : Option String
  is_error : Bool
  layer : Option String
  tags : List TagPair
  logs : List LogEntry
  refs : List SpanRef
  children_ids : List String
  depth : Nat
  deriving Repr, DecidableEq

/-- The `TraceSummary` dataclass. -/
structure TraceSummary where
  trace_id : String
  duration_ms : Int
  start_ms : Int
  is_error : Bool
  endpoint_names : List String
  deriving Repr, DecidableEq

/-! ## Insertion-ordered association lists modelling CPython dicts -/

/-- A Python dict with `String` keys: an association list holding each key
at most once, in insertion order. -/
abbrev Dict (α : Type) : Type := List (String × α)

/-- `d.get(k)` lookup, returning `none` when the key is absent. -/
def dictGet? {α : Type} : Dict α → String → Option α
  | [], _ => none
  | (k, v) :: rest, key => if k = key then some v else dictGet? rest key

/-- `d[k] = v`: overwrite in place when the key exists (keeping its
position), append otherwise. -/
def dictInsert {α : Type} : Dict α → String → α → Dict α
  | [], key, v => [(key, v)]
  | (k, w) :: rest, key, v =>
    if k = key then (k, v) :: rest else (k, w) :: dictInsert rest key v

/-- `d.setdefault(k, v)`. -/
def dictSetdefault {α : Type} (d : Dict α) (key : String) (v : α) : Dict α :=
  if (dictGet? d key).isSome then d else d ++ [(key, v)]

/-- `d[k].append(x)` for a dict of lists; a no-op when the key is absent
(the source only calls it behind a membership check).  Keys are unique in a
Python dict, so updating the first matching entry is the dict mutation. -/
def dictAppendAt : Dict (List String) → String → String → Dict (List String)
  | [], _, _ => []
  | (k0, l) :: rest, key, x =>
    if k0 = key then (k0, l ++ [x]) :: rest
    else (k0, l) :: dictAppendAt rest key x

/-- The key list of a dict, in insertion order. -/
def dictKeys {α : Type} (d : Dict α) : List String := d.map Prod.fst

/-- `k in d` membership test. -/
def dictMem {α : Type} (d : Dict α) (k : String) : Bool :=
  (dictGet? d k).isSome

/-! ## Embedding of `_build_span_records` -/

/-- Python truthiness of an optional string (`if not node_id: continue`
skips both `None` and the empty string). -/
def optStrTruthy : Option String → Bool
  | none => false
  | some s => s != ""

/-- Python `f"{x}"` applied to a value that may be `None`
(CPython renders `None` as the string `"None"`). -/
def pyStrOfOpt : Option String → String
  | none => "None"
  | some s => s

/-- `f"{segment_id}:{span_id}"`: the derived node identifier. -/
def mkNodeId (seg : String) (sp : Int) : String :=
  seg ++ ":" ++ toString sp

/-- The node identifier stage 1 computes for a raw span, when the span has
both `segmentId` and `spanId` (otherwise the span is dropped). -/
def nidOf? (s : RawSpan) : Option String :=
  match s.segmentId, s.spanId with
  | some seg, some sp => some (mkNodeId seg sp)
  | _, _ => none

/-- The node identifiers of the spans stage 1 keeps, in input order
(one entry per raw span, duplicates preserved). -/
def validNodeIds (spans : List RawSpan) : List String :=
  spans.filterMap nidOf?

/-- Stage 1 of `_build_span_records` (lines 408-417): annotate each usable
span with its node id (`span["_node_id"] = node_id`), record the span under
its node id (`nodes[node_id] = span`, last write wins) and initialise its
children list (`children.setdefault(node_id, [])`).  Returns the mutated
span list together with the `nodes` and `children` dicts. -/
def stage1Go : Dict RawSpan → Dict (List String) → List RawSpan →
    List RawSpan × Dict RawSpan × Dict (List String)
  | nodes, children, [] => ([], nodes, children)
  | nodes, children, span :: rest =>
    match span.segmentId, span.spanId with
    | some seg, some sp =>
      let nid := mkNodeId seg sp
      let span' := { span with nodeIdField := some nid }
      let r := stage1Go (dictInsert nodes nid span')
        (dictSetdefault children nid []) rest
      (span' :: r.1, r.2)
    | _, _ =>
      let r := stage1Go nodes children rest
      (span :: r.1, r.2)

/-- Parent resolution from the first cross-segment reference
(lines 430-436): `refs[0]` with both `parentSegmentId` and `parentSpanId`
present, else no parent. -/
def resolveFromRefs (span : RawSpan) : Option String :=
  match span.refs with
  | [] => none
  | ref :: _ =>
    match ref.parentSegmentId, ref.parentSpanId with
    | some seg, some sp => some (mkNodeId seg sp)
    | _, _ => none

/-- Stage-2 parent resolution for one span (lines 424-436).
`span.get("parentSpanId", -1)` defaults to `-1`, and the branch fires only
for a non-negative int, so an absent/null/negative value falls through to
the refs branch, which is modelled by the `Option Int` field. -/
def resolveParent (span : RawSpan) : Option String :=
  match span.parentSpanId with
  | some p =>
    if 0 ≤ p then some (pyStrOfOpt span.segmentId ++ ":" ++ toString p)
    else resolveFromRefs span
  | none => resolveFromRefs span

/-- Stage 2 of `_build_span_records` (lines 419-439): for every span that
received a node id, record its resolved parent in `parents` and, when the
parent is truthy and a known node, append the span to the parent's
children list. -/
def stage2Go : Dict (Option String) → Dict (List String) → List RawSpan →
    Dict (Option String) × Dict (List String)
  | parents, children, [] => (parents, children)
  | parents, children, span :: rest =>
    if optStrTruthy span.nodeIdField then
      let nid := span.nodeIdField.getD ""
      let parentNode := resolveParent span
      let parents' := dictInsert parents nid parentNode
      let children' :=
        match parentNode with
        | some p =>
          if p != "" && dictMem children p then dictAppendAt children p nid
          else children
        | none => children
      stage2Go parents' children' rest
    else stage2Go parents children rest

/-- Stage-3 root computation (line 443): the node ids whose recorded parent
is not a key of `nodes` (`parent not in nodes`; a `None` parent is never a
key). -/
def rootsOf (parents : Dict (Option String)) (nodes : Dict RawSpan) :
    List String :=
  (parents.filter (fun kv =>
    match kv.2 with
    | none => true
    | some p => !(dictMem nodes p))).map Prod.fst

/-- Stage-3 breadth-first depth assignment (lines 444-449), embedded with
fuel: pop the queue front, record its depth (unconditionally — the source
has no visited guard), enqueue its children one level deeper.  `none`
means the `while` loop has not finished within `fuel` iterations. -/
def bfsDepths (children : Dict (List String)) :
    Nat → List (String × Nat) → Dict Nat → Option (Dict Nat)
  | _, [], depths => some depths
  | 0, _ :: _, _ => none
  | fuel + 1, (current, depth) :: rest, depths =>
    bfsDepths children fuel
      (rest ++ ((dictGet? children current).getD []).map (fun c => (c, depth + 1)))
      (dictInsert depths current depth)

/-- Assembly of one `SpanRecord` (lines 456-478). -/
def mkSpanRecord (parents : Dict (Option String))
    (children : Dict (List String)) (depths : Dict Nat) (span : RawSpan)
    (nid : String) : SpanRecord where
  node_id := nid
  trace_id := span.traceId
  segment_id := span.segmentId
  span_id := span.spanId
  parent_span_id := span.parentSpanId
  parent_node_id := (dictGet? parents nid).getD none
  service_code := span.serviceCode
  service_instance := span.serviceInstanceName
  start_ms := span.startTime.getD 0
  end_ms := span.endTime.getD 0
  endpoint_name := span.endpointName
  span_type := span.spanType
  peer := span.peer
  component := span.component
  is_error := span.isError
  layer := span.layer
  tags := span.tags
  logs := span.logs
  refs := span.refs
  children_ids := (dictGet? children nid).getD []
  depth := (dictGet? depths nid).getD 0

/-- Stage 4 of `_build_span_records` (lines 451-479): one record per span
that carries a truthy `_node_id`. -/
def stage4 (parents : Dict (Option String)) (children : Dict (List String))
    (depths : Dict Nat) : List RawSpan → List SpanRecord
  | [] => []
  | span :: rest =>
    if optStrTruthy span.nodeIdField then
      mkSpanRecord parents children depths span (span.nodeIdField.getD "") ::
        stage4 parents children depths rest
    else stage4 parents children depths rest

/-- The stage-1 result on the actual (initially empty) accumulators. -/
def stage1Result (spans : List RawSpan) :
    List RawSpan × Dict RawSpan × Dict (List String) :=
  stage1Go [] [] spans

/-- The state of the input span list after `_build_span_records` ran: only
stage 1 writes to the spans (the single key `_node_id`); stages 2-4 read
them.  Hence the post-state is exactly the stage-1 output list. -/
def buildPostSpans (spans : List RawSpan) : List RawSpan :=
  (stage1Result spans).1

/-- The `nodes` dict after stage 1. -/
def buildNodes (spans : List RawSpan) : Dict RawSpan :=
  (stage1Result spans).2.1

/-- The `children` dict after stage 1 (every known node id mapped to `[]`). -/
def childrenInit (spans : List RawSpan) : Dict (List String) :=
  (stage1Result spans).2.2

/-- The stage-2 result (`parents` and the filled `children`). -/
def stage2Result (spans : List RawSpan) :
    Dict (Option String) × Dict (List String) :=
  stage2Go [] (childrenInit spans) (buildPostSpans spans)

/-- The `parents` dict after stage 2. -/
def buildParents (spans : List RawSpan) : Dict (Option String) :=
  (stage2Result spans).1

/-- The `children` dict after stage 2. -/
def buildChildren (spans : List RawSpan) : Dict (List String) :=
  (stage2Result spans).2

/-- The root list of `_build_span_records`. -/
def buildRoots (spans : List RawSpan) : List String :=
  rootsOf (buildParents spans) (buildNodes spans)

/-- `_build_span_records(spans)` (lines 401-481): returns the span-record
list and the root list, or `none` when the unguarded BFS loop does not
terminate within `fuel` iterations. -/
def buildSpanRecords (fuel : Nat) (spans : List RawSpan) :
    Option (List SpanRecord × List String) :=
  match bfsDepths (buildChildren spans) fuel
      ((buildRoots spans).map (fun r => (r, 0))) [] with
  | none => none
  | some depths =>
    some (stage4 (buildParents spans) (buildChildren spans) depths
      (buildPostSpans spans), buildRoots spans)

/-! ## Embedding of `SpanRecord.to_dict` -/

/-- One serialized log record (`to_dict` lines 89-96).  The ISO-formatted
`time_utc` string is pure presentation of `time_ms` via `utc_iso` and is
not modelled. -/
structure LogRecordOut where
  time_ms : Int
  data : Dict (Option String)
  deriving Repr, DecidableEq

/-- The dictionary produced by `SpanRecord.to_dict` (lines 86-123).  The
`*_utc` fields are ISO renderings of the corresponding `*_timestamp_ms`
values (pure formatting via `utc_iso`) and are not modelled separately. -/
structure SpanRecordDict where
  node_id : String
  trace_id : Option String
  segment_id : Option String
  span_id : Option Int
  parent_span_id : Option Int
  parent_node_id : Option String
  depth : Nat
  children_node_ids : List String
  service_code : Option String
  service_instance : Option String
  start_timestamp_ms : Int
  end_timestamp_ms : Int
  duration_ms : Int
  endpoint_name : Option String
  span_type : Option String
  peer : Option String
  component : Option String
  layer : Option String
  is_error : Bool
  tags : List TagPair
  tags_map : Dict (Option String)
  logs : List LogRecordOut
  refs : List SpanRef
  deriving Repr, DecidableEq

/-- `{item["key"]: item.get("value") for item in tags}`: a dict
comprehension, i.e. repeated insertion with later keys overwriting. -/
def tagsToMap (tags : List TagPair) : Dict (Option String) :=
  tags.foldl (fun d t => dictInsert d t.key t.value) []

/-- `SpanRecord.to_dict` (lines 86-123): in particular
`duration = max(0, self.end_ms - self.start_ms)`. -/
def SpanRecord.toDict (r : SpanRecord) : SpanRecordDict where
  node_id := r.node_id
  trace_id := r.trace_id
  segment_id := r.segment_id
  span_id := r.span_id
  parent_span_id := r.parent_span_id
  parent_node_id := r.parent_node_id
  depth := r.depth
  children_node_ids := r.children_ids
  service_code := r.service_code
  service_instance := r.service_instance
  start_timestamp_ms := r.start_ms
  end_timestamp_ms := r.end_ms
  duration_ms := max 0 (r.end_ms - r.start_ms)
  endpoint_name := r.endpoint_name
  span_type := r.span_type
  peer := r.peer
  component := r.component
  layer := r.layer
  is_error := r.is_error
  tags := r.tags
  tags_map := tagsToMap r.tags
  logs := r.logs.map (fun e => { time_ms := e.time, data := tagsToMap e.data })
  refs := r.refs

/-! ## Embedding of `fetch_trace_summaries`

The GraphQL time-window construction (lines 308-319) only shapes the query
condition sent to the backend; the backend itself is abstracted as a
function from the page number to the page's reported trace list and total
(`queryBasicTraces` returns `{total, traces}`).  The `while True` paging
loop is embedded with fuel. -/

/-- One entry of the `traces` array of the summary query
(`{traceIds, duration, start, isError, endpointNames}`).  `duration` and
`start` are `Option Int`: `none` models a missing or non-integer value,
which `int(entry.get(...))` maps to 0 through the `except` clause. -/
structure TraceEntry where
  traceIds : List String := []
  duration : Option Int := none
  start : Option Int := none
  isError : Bool := false
  endpointNames : List String := []
  deriving Repr, DecidableEq

/-- Building a `TraceSummary` from an accepted entry (lines 362-379). -/
def mkSummary (tid : String) (e : TraceEntry) : TraceSummary where
  trace_id := tid
  duration_ms := e.duration.getD 0
  start_ms := e.start.getD 0
  is_error := e.isError
  endpoint_names := e.endpointNames

/-- The inner `for entry in traces` loop (lines 353-382): skip entries with
no trace ids, de-duplicate on the first trace id, convert, and break as
soon as a nonzero `limit` is reached (`if limit and len(summaries) >=
limit: break`). -/
def processEntries (limit : Int) :
    List TraceEntry → List TraceSummary → List String →
    List TraceSummary × List String
  | [], acc, seen => (acc, seen)
  | e :: rest, acc, seen =>
    match e.traceIds with
    | [] => processEntries limit rest acc seen
    | tid :: _ =>
      if tid ∈ seen then processEntries limit rest acc seen
      else
        let acc' := acc ++ [mkSummary tid e]
        if limit ≠ 0 ∧ limit ≤ (acc'.length : Int) then (acc', tid :: seen)
        else processEntries limit rest acc' (tid :: seen)

/-- `page_size = max(1, min(page_size, limit if limit > 0 else page_size))`
(line 305). -/
def effPageSize (pageSize : Nat) (limit : Int) : Nat :=
  max 1 (min pageSize (if 0 < limit then limit.toNat else pageSize))

/-- Python list slicing `l[:n]` for an arbitrary integer bound
(`summaries[:limit]` at line 388; a negative bound drops from the end). -/
def pySliceTo {α : Type} (l : List α) (n : Int) : List α :=
  if 0 ≤ n then l.take n.toNat else l.take (l.length - (-n).toNat)

/-- The `while True` paging loop (lines 325-387).  Per iteration: the
early-exit size check (`if limit and len(summaries) >= limit: break`,
Python truthiness of `limit` being `limit != 0`), one backend query for
`page`, `total_available` overwritten with the reported total, break on an
empty page, the inner accumulation loop, and break when the page was
short (`len(traces) < page_size`). -/
def fetchLoop (backend : Nat → List TraceEntry × Int) (limit : Int)
    (pageSize : Nat) :
    Nat → Nat → List TraceSummary → List String → Int →
    Option (List TraceSummary × Int)
  | 0, _, _, _, _ => none
  | fuel + 1, page, acc, seen, total =>
    if limit ≠ 0 ∧ limit ≤ (acc.length : Int) then some (acc, total)
    else
      let traces := (backend page).1
      let total' := (backend page).2
      if traces.isEmpty then some (acc, total')
      else
        let r := processEntries limit traces acc seen
        if traces.length < pageSize then some (r.1, total')
        else fetchLoop backend limit pageSize fuel (page + 1) r.1 r.2 total'

/-- `fetch_trace_summaries` (lines 296-388): run the paging loop from page
1 and apply the final `summaries[:limit] if limit else summaries`
truncation.  `none` means the loop did not finish within `fuel` pages. -/
def fetchTraceSummaries (fuel : Nat) (backend : Nat → List TraceEntry × Int)
    (limit : Int) (pageSize : Nat) : Option (List TraceSummary × Int) :=
  match fetchLoop backend limit (effPageSize pageSize limit) fuel 1 [] [] 0 with
  | none => none
  | some (summaries, total) =>
    some (if limit ≠ 0 then pySliceTo summaries limit else summaries, total)

/-- Modelled from the spec (§4.2, the amended unbounded case): keep paging
from page 1, de-duplicating on trace id, until the backend returns an
empty page or a page shorter than the page size, with no size ceiling;
return everything accumulated plus the last reported total.  Used as the
reference behaviour the `limit = 0` run is compared against. -/
def discoverUnboundedSpec (backend : Nat → List TraceEntry × Int)
    (pageSize : Nat) :
    Nat → Nat → List TraceSummary → List String → Int →
    Option (List TraceSummary × Int)
  | 0, _, _, _, _ => none
  | fuel + 1, page, acc, seen, _ =>
    let traces := (backend page).1
    let total' := (backend page).2
    if traces.isEmpty then some (acc, total')
    else
      let r := processEntries 0 traces acc seen
      if traces.length < pageSize then some (r.1, total')
      else discoverUnboundedSpec backend pageSize fuel (page + 1) r.1 r.2 total'

/-! ## Embedding of `collect_traces`

The thread pool dispatches one `fetch_trace_spans` per summary and collects
results with `as_completed`; each worker's outcome is modelled by
`fetchSpans : String → Except String (List RawSpan)` (`Except.error` is a
raised exception).  The claims settled about `collect_traces` are
insensitive to completion order, and the model processes summaries in
submission order.  File writing, logging and timestamps are I/O and are
not modelled; "the artifact is not written" corresponds to the function
returning an error instead of an artifact value. -/

/-- The two run-level failures of `collect_traces`: line 512
(`No trace summaries were returned by SkyWalking.`) and line 550
(`All trace detail requests failed; nothing collected.`). -/
inductive CollectFailure where
  | noSummaries
  | allFetchesFailed
  deriving Repr, DecidableEq

/-- One entry of the `collected` list (lines 539-547). -/
structure TraceRecordOut where
  summary : TraceSummary
  span_count : Nat
  services_involved : List String
  root_span_node_ids : List String
  spans : List SpanRecord
  deriving Repr, DecidableEq

/-- The collection artifact (lines 564-578).  Time-of-day, experiment name
and backend URLs are environment I/O and not modelled. -/
structure CollectionArtifact where
  requested_trace_limit : Int
  collected_traces : Nat
  available_total : Int
  services_discovered : List String
  traces : List TraceRecordOut
  deriving Repr, DecidableEq

/-- `sorted({...})` over strings: sorted distinct values. -/
def sortedSet (l : List String) : List String :=
  l.eraseDups.mergeSort (fun a b => a ≤ b)

/-- `sorted({rec.service_code for rec in span_records if rec.service_code})`
(line 536): service codes that are truthy (present and nonempty). -/
def servicesOf (recs : List SpanRecord) : List String :=
  sortedSet (recs.filterMap (fun rec =>
    match rec.service_code with
    | some s => if s != "" then some s else none
    | none => none))

/-- The per-future body of the `as_completed` loop (lines 523-547): a
raised fetch exception is logged and skipped; a fetch whose spans produce
no usable records is skipped; otherwise a trace record is retained.
Returns `none` when `_build_span_records` diverges on the fetched spans. -/
def retainTrace (buildFuel : Nat)
    (fetchSpans : String → Except String (List RawSpan))
    (s : TraceSummary) : Option (Option TraceRecordOut) :=
  match fetchSpans s.trace_id with
  | Except.error _ => some none
  | Except.ok spans =>
    match buildSpanRecords buildFuel spans with
    | none => none
    | some (recs, roots) =>
      if recs.isEmpty then some none
      else some (some
        { summary := s
          span_count := recs.length
          services_involved := servicesOf recs
          root_span_node_ids := roots
          spans := recs })

/-- The accumulation over all summaries. -/
def collectLoop (buildFuel : Nat)
    (fetchSpans : String → Except String (List RawSpan)) :
    List TraceSummary → Option (List TraceRecordOut)
  | [] => some []
  | s :: rest =>
    match retainTrace buildFuel fetchSpans s with
    | none => none
    | some none => collectLoop buildFuel fetchSpans rest
    | some (some rec) =>
      match collectLoop buildFuel fetchSpans rest with
      | none => none
      | some recs => some (rec :: recs)

/-- `collect_traces` (lines 486-584): discovery, the `NoSummaries` check,
the fetch/build/retain loop, the `AllFetchesFailed` check, and artifact
assembly.  The outer `Option` is `none` when discovery paging or some
trace's BFS ran out of fuel. -/
def collectTraces (pagingFuel buildFuel : Nat)
    (backend : Nat → List TraceEntry × Int)
    (fetchSpans : String → Except String (List RawSpan))
    (size : Int) (pageSize : Nat) :
    Option (Except CollectFailure CollectionArtifact) :=
  match fetchTraceSummaries pagingFuel backend size pageSize with
  | none => none
  | some (summaries, total) =>
    if summaries.isEmpty then some (Except.error CollectFailure.noSummaries)
    else
      match collectLoop buildFuel fetchSpans summaries with
      | none => none
      | some collected =>
        if collected.isEmpty then
          some (Except.error CollectFailure.allFetchesFailed)
        else
          some (Except.ok
            { requested_trace_limit := size
              collected_traces := collected.length
              available_total := total
              services_discovered :=
                sortedSet (collected.flatMap (fun t => t.services_involved))
              traces := collected })

/-! ## Concrete inputs used by counterexamples and witnesses -/

/-- A cross-segment reference to `(segment, span)`. -/
def mkRef (seg : String) (sp : Int) : SpanRef :=
  { parentSegmentId := some seg, parentSpanId := some sp }

/-- Example span `{segment:"A", span:0, parent:-1}` of the spec's §8. -/
def exA0 : RawSpan :=
  { segmentId := some "A", spanId := some 0, parentSpanId := some (-1) }

/-- Example span `{segment:"A", span:1, parent:0}`. -/
def exA1 : RawSpan :=
  { segmentId := some "A", spanId := some 1, parentSpanId := some 0 }

/-- Example span `{segment:"B", span:0, refs:[{parent_segment:"A",
parent_span:1}]}` (a cross-segment child has local parent `-1`). -/
def exB0 : RawSpan :=
  { segmentId := some "B", spanId := some 0, parentSpanId := some (-1),
    refs := [mkRef "A" 1] }

/-- The three-span single-tree example raw span set. -/
def exampleSpans : List RawSpan := [exA0, exA1, exB0]

/-- The graph distance from the root for the example trace. -/
def exampleDepth (nid : String) : Nat :=
  if nid = "A:1" then 1 else if nid = "B:0" then 2 else 0

/-- Root span of the malformed cyclic input: node `R:0`. -/
def cycR : RawSpan :=
  { segmentId := some "R", spanId := some 0, parentSpanId := some (-1) }

/-- Node `A:0`, child of `R:0` via a reference. -/
def cycA : RawSpan :=
  { segmentId := some "A", spanId := some 0, refs := [mkRef "R" 0] }

/-- Node `B:0`, child of `A:0` via a reference. -/
def cycB : RawSpan :=
  { segmentId := some "B", spanId := some 0, refs := [mkRef "A" 0] }

/-- A second raw span with the same `segment_id`/`span_id` pair as `cycA`
but referencing `B:0`, closing the cycle `A:0 → B:0 → A:0` in the
children lists while `R:0 → A:0` stays reachable from the root. -/
def cycA2 : RawSpan :=
  { segmentId := some "A", spanId := some 0, refs := [mkRef "B" 0] }

/-- Malformed raw span set containing two spans with the same
`segment_id`/`span_id` pair; its children lists are
`R:0 → [A:0]`, `A:0 → [B:0]`, `B:0 → [A:0]` with single root `R:0`. -/
def cycSpans : List RawSpan := [cycR, cycA, cycB, cycA2]

/-- The children dict `_build_span_records` computes for `cycSpans`. -/
def cycChildren : Dict (List String) :=
  [("R:0", ["A:0"]), ("A:0", ["B:0"]), ("B:0", ["A:0"])]

/-- A valid root span, node `A:0`. -/
def dupA : RawSpan :=
  { segmentId := some "A", spanId := some 0, parentSpanId := some (-1) }

/-- Two raw spans sharing the `segment_id`/`span_id` pair `("A", 0)`. -/
def dupSpans : List RawSpan := [dupA, dupA]

/-- C6 counterexample part: root `A:0`. -/
def c6a0 : RawSpan :=
  { segmentId := some "A", spanId := some 0, parentSpanId := some (-1) }

/-- C6 counterexample part: `A:1` with local parent `0` (a known node). -/
def c6a1 : RawSpan :=
  { segmentId := some "A", spanId := some 1, parentSpanId := some 0 }

/-- C6 counterexample part: a second span for node `A:1` whose reference
points at the unknown node `X:9`, overwriting the recorded parent after
`A:1` was already appended to the children of `A:0`. -/
def c6a1x : RawSpan :=
  { segmentId := some "A", spanId := some 1, parentSpanId := some (-1),
    refs := [mkRef "X" 9] }

/-- Raw span set on which the children union is not the inversion of the
final parent map. -/
def c6Spans : List RawSpan := [c6a0, c6a1, c6a1x]

/-- A span whose resolved parent `Z:5` matches no present node. -/
def dangSpan : RawSpan :=
  { segmentId := some "A", spanId := some 0, parentSpanId := some (-1),
    refs := [mkRef "Z" 5] }

/-- A span used to exercise the refs branch of parent resolution. -/
def c2wSpan : RawSpan :=
  { segmentId := some "S", spanId := some 3, parentSpanId := some (-1),
    refs := [mkRef "X" 7, mkRef "Y" 8] }

/-- A backend holding exactly one trace summary, on page 1. -/
def oneEntry : TraceEntry :=
  { traceIds := ["t1"], duration := some 5, start := some 100 }

/-- The summary built from `oneEntry`. -/
def oneSummary : TraceSummary := mkSummary "t1" oneEntry

/-- Backend reporting one summary (total 1) on page 1, nothing after. -/
def oneBackend : Nat → List TraceEntry × Int :=
  fun page => if page = 1 then ([oneEntry], 1) else ([], 1)

/-- The node-id list of a build result. -/
def nodeIdsOf (o : Option (List SpanRecord × List String)) :
    Option (List String) :=
  o.map (fun pr => pr.1.map SpanRecord.node_id)

/-- The union (concatenation) of `children_node_ids` over a build result. -/
def unionChildrenOf (o : Option (List SpanRecord × List String)) :
    Option (List String) :=
  o.map (fun pr => (pr.1.map SpanRecord.children_ids).flatten)

/-- The node ids of the records whose `parent_node_id` is a known node id
of the same build result. -/
def resolvedToKnownOf (o : Option (List SpanRecord × List String)) :
    Option (List String) :=
  o.map (fun pr => (pr.1.filter (fun rec =>
    match rec.parent_node_id with
    | some p => (pr.1.map SpanRecord.node_id).contains p
    | none => false)).map SpanRecord.node_id)

/-- Second backend entry for the coordinator witness. -/
def twoEntry : TraceEntry :=
  { traceIds := ["t2"], duration := some 7, start := some 200 }

/-- Backend reporting two trace summaries on page 1. -/
def twoBackend : Nat → List TraceEntry × Int :=
  fun page => if page = 1 then ([oneEntry, twoEntry], 2) else ([], 2)

/-- A fetch function where trace `t1` raises and trace `t2` returns one
usable span: one fetch fails, one trace is retained. -/
def mixedFetch : String → Except String (List RawSpan) :=
  fun tid => if tid = "t2" then Except.ok [dupA] else Except.error "boom"

/-- A fetch function where every fetch raises. -/
def failFetch : String → Except String (List RawSpan) :=
  fun _ => Except.error "boom"

/-- The summaries discovered from `twoBackend`. -/
def twoSummaries : List TraceSummary :=
  [mkSummary "t1" oneEntry, mkSummary "t2" twoEntry]

/-- The trace records retained from `twoBackend` under `mixedFetch`. -/
def c8Retained : List TraceRecordOut :=
  (collectLoop 2 mixedFetch twoSummaries).getD []

/-- The per-span effect of stage 1 on the span itself: usable spans get
their node id written into `_node_id`, other spans are untouched. -/
def stage1Map (s : RawSpan) : RawSpan :=
  match nidOf? s with
  | some nid => { s with nodeIdField := some nid }
  | none => s

/-- The node id under which stage 2 (and stage 4) processes a span:
`span.get("_node_id")` when truthy, else the span is skipped. -/
def procNid (s : RawSpan) : Option String :=
  if optStrTruthy s.nodeIdField then some (s.nodeIdField.getD "") else none

/-- The node ids of the spans stages 2 and 4 process, in order. -/
def procNodeIds (spans : List RawSpan) : List String :=
  spans.filterMap procNid

/-- The last parent resolution recorded for node id `y` over a span list
(later spans overwrite earlier entries of the `parents` dict). -/
def lastResolved : List RawSpan → String → Option (Option String)
  | [], _ => none
  | s :: rest, y =>
    match lastResolved rest y with
    | some v => some v
    | none => if procNid s = some y then some (resolveParent s) else none

/-- The node ids stage 2 appends to `children[x]`, in order. -/
def childAppends (x : String) (spans : List RawSpan) : List String :=
  spans.filterMap (fun s =>
    match procNid s with
    | some nid => if resolveParent s = some x ∧ x ≠ "" then some nid else none
    | none => none)

/-- The `(node id, resolved parent)` pairs of a raw span list, in order. -/
def buildPairs (spans : List RawSpan) : Dict (Option String) :=
  spans.filterMap (fun s =>
    (nidOf? s).map (fun nid => (nid, resolveParent s)))

/-- The build output on the three-span example (fuel 4 suffices). -/
def exampleBuildOut : List SpanRecord × List String :=
  (buildSpanRecords 4 exampleSpans).getD ([], [])

/-- The build output on the dangling-reference span. -/
def dangBuildOut : List SpanRecord × List String :=
  (buildSpanRecords 2 [dangSpan]).getD ([], [])

/-- The abstract hypotheses under which the stage-3 BFS is analysed: the
children dict `c`, the resolved-parent function `Par`, the set `keys` of
known node ids, a distance function `D` and the root `r` form a single
rooted tree — each non-root key has its parent among the keys one level
up, the root's parent is absent or unknown, and the children lists are
exactly the inversion of `Par`. -/
structure TreeHyp (c : Dict (List String)) (Par : String → Option String)
    (D : String → Nat) (keys : List String) (r : String) : Prop where
  keysNodup : keys.Nodup
  ckeys : ∀ x, x ∈ dictKeys c ↔ x ∈ keys
  childIff : ∀ x, x ∈ keys → ∀ y,
    (y ∈ (dictGet? c x).getD [] ↔ y ∈ keys ∧ Par y = some x)
  childNodup : ∀ x, x ∈ keys → ((dictGet? c x).getD []).Nodup
  rootMem : r ∈ keys
  rootDepth : D r = 0
  rootPar : ∀ x, Par r = some x → x ∉ keys
  step : ∀ y, y ∈ keys → y ≠ r →
    ∃ x, x ∈ keys ∧ Par y = some x ∧ D y = D x + 1

/-- The loop invariant of the stage-3 BFS on a single rooted tree: queue
entries are undiscovered keys carrying their distance, recorded depths are
final distances, the root is discovered, children of finished nodes are
discovered, and children of unfinished nodes are untouched. -/
structure BfsInv (c : Dict (List String)) (Par : String → Option String)
    (D : String → Nat) (keys : List String) (r : String)
    (queue : List (String × Nat)) (depths : Dict Nat) : Prop where
  qNodup : (queue.map Prod.fst).Nodup
  dNodup : (dictKeys depths).Nodup
  qMem : ∀ q ∈ queue, q.1 ∈ keys ∧ q.2 = D q.1 ∧ q.1 ∉ dictKeys depths
  dMem : ∀ y ∈ dictKeys depths, y ∈ keys
  dVal : ∀ y ∈ dictKeys depths, dictGet? depths y = some (D y)
  rDisc : r ∈ dictKeys depths ∨ r ∈ queue.map Prod.fst
  cover : ∀ y, y ∈ keys → ∀ x, Par y = some x → x ∈ dictKeys depths →
    y ∈ dictKeys depths ∨ y ∈ queue.map Prod.fst
  fresh : ∀ x, x ∉ dictKeys depths → ∀ y, y ∈ (dictGet? c x).getD [] →
    y ∉ queue.map Prod.fst ∧ y ∉ dictKeys depths

/-! ## Dictionary lemmas -/

@[simp] theorem dictKeys_nil {α : Type} : dictKeys ([] : Dict α) = [] := rfl

@[simp] theorem dictKeys_cons {α : Type} (kv : String × α) (d : Dict α) :
    dictKeys (kv :: d) = kv.1 :: dictKeys d := rfl

@[simp] theorem dictKeys_append {α : Type} (d d' : Dict α) :
    dictKeys (d ++ d') = dictKeys d ++ dictKeys d' := List.map_append _ d d'

theorem dictGet?_insert {α : Type} (d : Dict α) (k k' : String) (v : α) :
    dictGet? (dictInsert d k v) k' =
      if k = k' then some v else dictGet? d k' := by
  induction d with
  | nil => simp [dictInsert, dictGet?]
  | cons kv rest ih =>
    obtain ⟨k0, w⟩ := kv
    by_cases h0 : k0 = k
    · subst h0
      by_cases h1 : k0 = k'
      · subst h1; simp [dictInsert, dictGet?]
      · simp [dictInsert, dictGet?, h1]
    · by_cases h1 : k0 = k'
      · subst h1
        simp [dictInsert, dictGet?, h0, Ne.symm h0]
      · simp [dictInsert, dictGet?, h0, h1, ih]

theorem dictKeys_insert_of_mem {α : Type} (d : Dict α) (k : String) (v : α)
    (h : k ∈ dictKeys d) : dictKeys (dictInsert d k v) = dictKeys d := by
  induction d with
  | nil => simp at h
  | cons kv rest ih =>
    obtain ⟨k0, w⟩ := kv
    by_cases h0 : k0 = k
    · subst h0; simp [dictInsert]
    · rcases List.mem_cons.mp (by simpa using h) with h1 | h1
      · exact absurd h1.symm h0
      · simp [dictInsert, h0, ih h1]

theorem dictKeys_insert_of_not_mem {α : Type} (d : Dict α) (k : String) (v : α)
    (h : k ∉ dictKeys d) : dictKeys (dictInsert d k v) = dictKeys d ++ [k] := by
  induction d with
  | nil => simp [dictInsert]
  | cons kv rest ih =>
    obtain ⟨k0, w⟩ := kv
    simp only [dictKeys_cons, List.mem_cons] at h
    push_neg at h
    have h0 : ¬ k0 = k := fun hh => h.1 hh.symm
    simp [dictInsert, h0, ih h.2]

theorem dictInsert_eq_append_of_not_mem {α : Type} (d : Dict α) (k : String)
    (v : α) (h : k ∉ dictKeys d) : dictInsert d k v = d ++ [(k, v)] := by
  induction d with
  | nil => simp [dictInsert]
  | cons kv rest ih =>
    obtain ⟨k0, w⟩ := kv
    simp only [dictKeys_cons, List.mem_cons] at h
    push_neg at h
    have h0 : ¬ k0 = k := fun hh => h.1 hh.symm
    simp [dictInsert, h0, ih h.2]

theorem dictMem_iff_mem_keys {α : Type} (d : Dict α) (k : String) :
    dictMem d k = true ↔ k ∈ dictKeys d := by
  induction d with
  | nil => simp [dictMem, dictGet?]
  | cons kv rest ih =>
    obtain ⟨k0, w⟩ := kv
    by_cases h0 : k0 = k
    · subst h0; simp [dictMem, dictGet?]
    · simp only [dictMem, dictGet?, h0, if_false, dictKeys_cons, List.mem_cons] at ih ⊢
      constructor
      · intro h; exact Or.inr (ih.mp h)
      · intro h
        rcases h with h | h
        · exact absurd h.symm h0
        · exact ih.mpr h

theorem dictGet?_isSome_iff_mem_keys {α : Type} (d : Dict α) (k : String) :
    (dictGet? d k).isSome = true ↔ k ∈ dictKeys d :=
  dictMem_iff_mem_keys d k

theorem dictGet?_eq_none_of_not_mem {α : Type} (d : Dict α) (k : String)
    (h : k ∉ dictKeys d) : dictGet? d k = none := by
  cases hv : dictGet? d k with
  | none => rfl
  | some v =>
    exact absurd ((dictGet?_isSome_iff_mem_keys d k).mp (by simp [hv])) h

theorem dictKeys_nodup_insert {α : Type} (d : Dict α) (k : String) (v : α)
    (h : (dictKeys d).Nodup) : (dictKeys (dictInsert d k v)).Nodup := by
  by_cases hm : k ∈ dictKeys d
  · rw [dictKeys_insert_of_mem d k v hm]; exact h
  · rw [dictKeys_insert_of_not_mem d k v hm]
    simp [List.nodup_append, h, hm]

theorem dictGet?_appendAt (d : Dict (List String)) (k k' : String) (x : String) :
    dictGet? (dictAppendAt d k x) k' =
      if k' = k then (dictGet? d k').map (fun l => l ++ [x])
      else dictGet? d k' := by
  induction d with
  | nil => simp [dictAppendAt, dictGet?]
  | cons kv rest ih =>
    obtain ⟨k0, w⟩ := kv
    by_cases h0 : k0 = k
    · subst h0
      by_cases h1 : k0 = k'
      · subst h1; simp [dictAppendAt, dictGet?]
      · simp [dictAppendAt, dictGet?, h1, Ne.symm h1]
    · by_cases h1 : k0 = k'
      · subst h1
        have h2 : ¬ k0 = k := h0
        simp [dictAppendAt, dictGet?, h2]
      · simp [dictAppendAt, dictGet?, h0, h1, ih]

theorem dictKeys_appendAt (d : Dict (List String)) (k x : String) :
    dictKeys (dictAppendAt d k x) = dictKeys d := by
  induction d with
  | nil => simp [dictAppendAt]
  | cons kv rest ih =>
    obtain ⟨k0, w⟩ := kv
    by_cases h0 : k0 = k <;> simp [dictAppendAt, h0, ih]

theorem dictGet?_append {α : Type} (d d' : Dict α) (k : String) :
    dictGet? (d ++ d') k =
      match dictGet? d k with
      | some v => some v
      | none => dictGet? d' k := by
  induction d with
  | nil => simp [dictGet?]
  | cons kv rest ih =>
    obtain ⟨k0, w⟩ := kv
    by_cases h0 : k0 = k <;> simp [dictGet?, h0, ih]

theorem dictGet?_of_mem_nodup {α : Type} (d : Dict α) (k : String) (v : α)
    (hnd : (dictKeys d).Nodup) (hm : (k, v) ∈ d) : dictGet? d k = some v := by
  induction d with
  | nil => simp at hm
  | cons kv rest ih =>
    obtain ⟨k0, w⟩ := kv
    simp only [dictKeys_cons, List.nodup_cons] at hnd
    rcases List.mem_cons.mp hm with h | h
    · injection h with hk hv
      subst hk; subst hv
      simp [dictGet?]
    · have hk0 : ¬ k0 = k := by
        intro hE; subst hE
        exact hnd.1 (by simpa [dictKeys] using List.mem_map_of_mem Prod.fst h)
      simp only [dictGet?, hk0, if_false]
      exact ih hnd.2 h

/-! ## General lemmas about the build stages -/

theorem stage1Go_fst (nodes : Dict RawSpan) (children : Dict (List String))
    (spans : List RawSpan) :
    (stage1Go nodes children spans).1 = spans.map stage1Map := by
  induction spans generalizing nodes children with
  | nil => simp [stage1Go]
  | cons s rest ih =>
    cases hseg : s.segmentId with
    | none =>
      simp [stage1Go, hseg, stage1Map, nidOf?, ih]
    | some seg =>
      cases hsp : s.spanId with
      | none => simp [stage1Go, hseg, hsp, stage1Map, nidOf?, ih]
      | some sp => simp [stage1Go, hseg, hsp, stage1Map, nidOf?, ih]

theorem buildPostSpans_eq (spans : List RawSpan) :
    buildPostSpans spans = spans.map stage1Map :=
  stage1Go_fst [] [] spans

/-! ## Claim C10 -/

/-- C10: for every `SpanRecord`, `to_dict` serializes
`duration_ms = max(0, end_ms - start_ms)`, which is non-negative even when
the raw span's end time precedes its start time. -/
theorem claim_C10 (r : SpanRecord) :
    (SpanRecord.toDict r).duration_ms = max 0 (r.end_ms - r.start_ms) ∧
    0 ≤ (SpanRecord.toDict r).duration_ms :=
  ⟨rfl, le_max_left 0 (r.end_ms - r.start_ms)⟩

/-! ## Claim C9 -/

/-- C9: `_build_span_records` consumes each raw span and produces new
`SpanRecord` structures; the input span list after the build has the same
length, and each input span is changed in at most the single key
`_node_id` written by stage 1 (`nodeIdField` in the model) — every other
field of every raw span is left unchanged.  Stages 2-4 never write to the
spans, so the post-state is the stage-1 output (`buildPostSpans`). -/
theorem claim_C9 (spans : List RawSpan) :
    (buildPostSpans spans).length = spans.length ∧
    List.Forall₂ (fun s s' => s' = { s with nodeIdField := s'.nodeIdField })
      spans (buildPostSpans spans) := by
  rw [buildPostSpans_eq]
  constructor
  · simp
  · rw [List.forall₂_map_right_iff]
    rw [List.forall₂_same]
    intro s _
    cases h : nidOf? s with
    | none => simp [stage1Map, h]
    | some nid => simp [stage1Map, h]

/-! ## Claim C2 -/

/-- C2: for every raw span, the stage-2 parent resolution follows the
priority order of lines 424-436: (a) a non-negative integer
`parentSpanId` resolves within the span's own segment; (b) otherwise the
first reference's `(parentSegmentId, parentSpanId)` pair is used, and the
references after the first never influence the result; (c) otherwise the
span has no resolved parent.  Spans kept by the build have
`segmentId = some seg`, which branch (a) assumes. -/
theorem claim_C2 (s : RawSpan) :
    (∀ seg p, s.segmentId = some seg → s.parentSpanId = some p → 0 ≤ p →
      resolveParent s = some (mkNodeId seg p)) ∧
    ((∀ p, s.parentSpanId = some p → p < 0) →
      ∀ ref rest, s.refs = ref :: rest →
        (∀ pseg psp, ref.parentSegmentId = some pseg →
          ref.parentSpanId = some psp →
          resolveParent s = some (mkNodeId pseg psp)) ∧
        (∀ rest2, resolveParent { s with refs := ref :: rest2 } =
          resolveParent s)) ∧
    ((∀ p, s.parentSpanId = some p → p < 0) → s.refs = [] →
      resolveParent s = none) := by
  refine ⟨?_, ?_, ?_⟩
  · intro seg p hseg hp hpos
    simp [resolveParent, hp, hpos, hseg, pyStrOfOpt, mkNodeId]
  · intro hneg ref rest hrefs
    have hres : resolveParent s = resolveFromRefs s := by
      cases hp : s.parentSpanId with
      | none => simp [resolveParent, hp]
      | some p =>
        have := hneg p hp
        simp [resolveParent, hp, not_le.mpr this]
    constructor
    · intro pseg psp hpseg hpsp
      rw [hres]
      simp [resolveFromRefs, hrefs, hpseg, hpsp]
    · intro rest2
      have hres2 : resolveParent { s with refs := ref :: rest2 } =
          resolveFromRefs { s with refs := ref :: rest2 } := by
        cases hp : s.parentSpanId with
        | none => simp [resolveParent, hp]
        | some p =>
          have := hneg p hp
          simp [resolveParent, hp, not_le.mpr this]
      rw [hres, hres2]
      simp [resolveFromRefs, hrefs]
  · intro hneg hrefs
    cases hp : s.parentSpanId with
    | none => simp [resolveParent, hp, resolveFromRefs, hrefs]
    | some p =>
      have := hneg p hp
      simp [resolveParent, hp, not_le.mpr this, resolveFromRefs, hrefs]

/-- Witness for C2 at a concrete span whose local parent id is `-1` and
which carries two references: the first reference `X:7` resolves the
parent and the second is ignored. -/
theorem claim_C2_witness :
    resolveParent c2wSpan = some "X:7" ∧
    resolveParent { c2wSpan with refs := [mkRef "X" 7] } =
      resolveParent c2wSpan := by
  have hneg : ∀ p, c2wSpan.parentSpanId = some p → p < 0 := by
    intro p hp
    have : (-1 : Int) = p := by
      simpa [c2wSpan] using hp
    rw [← this]
    decide
  have h := (claim_C2 c2wSpan).2.1 hneg (mkRef "X" 7) [mkRef "Y" 8] rfl
  constructor
  · have := h.1 "X" 7 rfl rfl
    simpa [mkNodeId] using this
  · exact h.2 []

/-! ## Claim C1 -/

theorem cyc_buildChildren : buildChildren cycSpans = cycChildren := by rfl

theorem cyc_buildRoots : buildRoots cycSpans = ["R:0"] := by rfl

/-- On `cycChildren`, a queue holding `A:0` (or `B:0`) never drains: each
step replaces the one queue entry by the other node one level deeper. -/
theorem cyc_bfs_loop (fuel : Nat) :
    (∀ d depths, bfsDepths cycChildren fuel [("A:0", d)] depths = none) ∧
    (∀ d depths, bfsDepths cycChildren fuel [("B:0", d)] depths = none) := by
  induction fuel with
  | zero => exact ⟨fun d depths => rfl, fun d depths => rfl⟩
  | succ fuel ih =>
    constructor
    · intro d depths
      have hstep : bfsDepths cycChildren (fuel + 1) [("A:0", d)] depths =
          bfsDepths cycChildren fuel [("B:0", d + 1)]
            (dictInsert depths "A:0" d) := by rfl
      rw [hstep]
      exact ih.2 (d + 1) (dictInsert depths "A:0" d)
    · intro d depths
      have hstep : bfsDepths cycChildren (fuel + 1) [("B:0", d)] depths =
          bfsDepths cycChildren fuel [("A:0", d + 1)]
            (dictInsert depths "B:0" d) := by rfl
      rw [hstep]
      exact ih.1 (d + 1) (dictInsert depths "B:0" d)

/-- C1 (code bug): `_build_span_records` does NOT terminate on every raw
span set.  On `cycSpans` — malformed data with two raw spans sharing the
`segment_id`/`span_id` pair `("A", 0)` whose children lists close the
cycle `A:0 → B:0 → A:0` reachable from the single root `R:0` — the
unguarded BFS `while` loop runs forever: for every fuel bound the loop is
still running, so no depth assignment is ever final and node depths are
overwritten unboundedly, contradicting both the claimed termination and
the claimed at-most-once depth assignment. -/
theorem claim_C1 (fuel : Nat) : buildSpanRecords fuel cycSpans = none := by
  have hbfs : bfsDepths (buildChildren cycSpans) fuel
      ((buildRoots cycSpans).map (fun r => (r, 0))) [] = none := by
    rw [cyc_buildChildren, cyc_buildRoots]
    cases fuel with
    | zero => rfl
    | succ fuel =>
      have hstep : bfsDepths cycChildren (fuel + 1) [("R:0", 0)] [] =
          bfsDepths cycChildren fuel [("A:0", 1)]
            (dictInsert [] "R:0" 0) := by rfl
      rw [List.map_cons, List.map_nil, hstep]
      exact (cyc_bfs_loop fuel).1 1 (dictInsert [] "R:0" 0)
  unfold buildSpanRecords
  rw [hbfs]

/-! ## Claim C5: counterexample -/

/-- C5 fails as stated: on the raw span set `dupSpans` — two raw spans
sharing the `segment_id`/`span_id` pair `("A", 0)` — stage 4 emits one
record per raw span, so the node identifier `A:0` appears twice in the
returned node list. -/
theorem claim_C5_counterexample :
    nodeIdsOf (buildSpanRecords 2 dupSpans) = some ["A:0", "A:0"] ∧
    ¬ (["A:0", "A:0"] : List String).Nodup := by
  constructor
  · rfl
  · decide

/-! ## Claim C6: counterexample -/

/-- C6 fails as stated: on `c6Spans` the node `A:1` is appended to the
children of `A:0` by its first raw span, after which its second raw span
overwrites its recorded parent with the unknown node `X:9`.  The union of
`children_node_ids` over the returned records is `{A:1}`, while no
returned record's `parent_node_id` resolves to a known node, so the
inversion property fails at `A:1`. -/
theorem claim_C6_counterexample :
    unionChildrenOf (buildSpanRecords 3 c6Spans) = some ["A:1"] ∧
    resolvedToKnownOf (buildSpanRecords 3 c6Spans) = some [] ∧
    "A:1" ∉ ([] : List String) := by
  refine ⟨rfl, rfl, ?_⟩
  decide

/-! ## Claim C7 -/

/-- C7 fails as stated for negative limits: against a backend holding one
summary, `limit = -1` returns the empty list without fetching a page
(the early-exit check `len(summaries) >= limit` is immediately true for a
negative limit, which is truthy in Python), while the unbounded run
(`limit = 0`) returns the summary.  The claim says every `limit <= 0` is
unbounded. -/
theorem claim_C7_counterexample :
    fetchTraceSummaries 5 oneBackend (-1) 200 = some ([], 0) ∧
    fetchTraceSummaries 5 oneBackend 0 200 = some ([oneSummary], 1) ∧
    ([] : List TraceSummary) ≠ [oneSummary] := by
  refine ⟨rfl, rfl, ?_⟩
  decide

/-- With `limit = 0` the paging loop is exactly the unbounded reference
loop: the early-exit size check `if limit and ...` never fires. -/
theorem fetchLoop_zero_eq_spec (backend : Nat → List TraceEntry × Int)
    (pageSize : Nat) (fuel page : Nat) (acc : List TraceSummary)
    (seen : List String) (total : Int) :
    fetchLoop backend 0 pageSize fuel page acc seen total =
      discoverUnboundedSpec backend pageSize fuel page acc seen total := by
  induction fuel generalizing page acc seen total with
  | zero => rfl
  | succ fuel ih =>
    simp only [fetchLoop, discoverUnboundedSpec]
    have hz : ¬ ((0 : Int) ≠ 0 ∧ (0 : Int) ≤ (acc.length : Int)) := by
      intro h; exact h.1 rfl
    rw [if_neg hz]
    by_cases hemp : (backend page).1.isEmpty
    · simp [hemp]
    · simp only [hemp, if_false, Bool.false_eq_true]
      by_cases hlen : (backend page).1.length < pageSize
      · simp [hlen]
      · simp [hlen, ih]

/-- C7 corrected: `limit = 0` (the documented "no limit" value) is the
unbounded mode — the loop ignores the early-exit size check, pages until
the backend returns an empty or short page, and the accumulated
de-duplicated list is returned untruncated; a positive `limit` returns at
most `limit` summaries; but a NEGATIVE limit is not unbounded: the
early-exit check fires before the first page and the result is empty. -/
theorem claim_C7 (backend : Nat → List TraceEntry × Int) (pageSize : Nat)
    (fuel : Nat) :
    (∀ limit : Int, limit < 0 → 0 < fuel →
      fetchTraceSummaries fuel backend limit pageSize = some ([], 0)) ∧
    (fetchTraceSummaries fuel backend 0 pageSize =
      discoverUnboundedSpec backend (effPageSize pageSize 0) fuel 1 [] [] 0) ∧
    (∀ limit : Int, 0 < limit → ∀ res,
      fetchTraceSummaries fuel backend limit pageSize = some res →
      (res.1.length : Int) ≤ limit) := by
  refine ⟨?_, ?_, ?_⟩
  · intro limit hneg hfuel
    cases fuel with
    | zero => exact absurd hfuel (by decide)
    | succ fuel =>
      have hcond : limit ≠ 0 ∧ limit ≤ (([] : List TraceSummary).length : Int) := by
        constructor
        · intro h; rw [h] at hneg; exact absurd hneg (by decide)
        · simp
          exact le_of_lt hneg
      have hloop : fetchLoop backend limit (effPageSize pageSize limit)
          (fuel + 1) 1 [] [] 0 = some ([], 0) := by
        simp only [fetchLoop, if_pos hcond]
      have hlim : limit ≠ 0 := hcond.1
      simp only [fetchTraceSummaries, hloop, hlim, if_true, ne_eq,
        not_false_eq_true]
      have hslice : pySliceTo ([] : List TraceSummary) limit = [] := by
        simp [pySliceTo]
      simp [hslice]
  · simp only [fetchTraceSummaries, fetchLoop_zero_eq_spec]
    cases hr : discoverUnboundedSpec backend (effPageSize pageSize 0) fuel 1 [] [] 0 with
    | none => rfl
    | some pr => simp
  · intro limit hpos res hres
    have hlim : limit ≠ 0 := by
      intro h; rw [h] at hpos; exact absurd hpos (by decide)
    simp only [fetchTraceSummaries] at hres
    cases hloop : fetchLoop backend limit (effPageSize pageSize limit)
        fuel 1 [] [] 0 with
    | none => rw [hloop] at hres; exact absurd hres (by simp)
    | some pr =>
      rw [hloop] at hres
      simp only [hlim, ne_eq, not_false_eq_true, if_true] at hres
      have hres1 : res.1 = pySliceTo pr.1 limit := by
        cases pr; cases res
        simp at hres
        simp [hres.1.symm]
      rw [hres1]
      have h0 : (0 : Int) ≤ limit := le_of_lt hpos
      simp only [pySliceTo, if_pos h0]
      have : (pr.1.take limit.toNat).length ≤ limit.toNat :=
        le_trans (le_of_eq (List.length_take _ _)) (min_le_left _ _)
      calc ((pr.1.take limit.toNat).length : Int)
          ≤ (limit.toNat : Int) := by exact_mod_cast this
        _ = limit := Int.toNat_of_nonneg h0

/-- Witness for C7 at concrete inputs: a negative limit returns nothing
even though the backend has a summary, and a positive limit bounds the
result size. -/
theorem claim_C7_witness :
    fetchTraceSummaries 1 oneBackend (-2) 200 = some ([], 0) ∧
    ((([oneSummary], (1 : Int)) :
        List TraceSummary × Int).1.length : Int) ≤ 3 :=
  ⟨(claim_C7 oneBackend 200 1).1 (-2) (by decide) (by decide),
   (claim_C7 oneBackend 200 5).2.2 3 (by decide) ([oneSummary], 1) rfl⟩

/-! ## Claim C8 -/

/-- C8: given the discovered summaries, `collect_traces` raises
`NoSummaries` (line 512) exactly when discovery yielded zero summaries;
given the retained records of the fetch loop, it raises `AllFetchesFailed`
(line 550) exactly when the run proceeded past discovery and zero trace
records were retained — in both cases the run ends in the error, so no
artifact value exists to be written; when at least one record is retained
the run returns the artifact; and an individual fetch failure is absorbed:
it is skipped and the loop continues with the remaining summaries. -/
theorem claim_C8 (pagingFuel buildFuel : Nat)
    (backend : Nat → List TraceEntry × Int)
    (fetchSpans : String → Except String (List RawSpan))
    (size : Int) (pageSize : Nat)
    (summaries : List TraceSummary) (total : Int)
    (hdisc : fetchTraceSummaries pagingFuel backend size pageSize =
      some (summaries, total)) :
    (collectTraces pagingFuel buildFuel backend fetchSpans size pageSize =
      some (Except.error CollectFailure.noSummaries) ↔ summaries = []) ∧
    (∀ retained, collectLoop buildFuel fetchSpans summaries = some retained →
      (collectTraces pagingFuel buildFuel backend fetchSpans size pageSize =
        some (Except.error CollectFailure.allFetchesFailed) ↔
        summaries ≠ [] ∧ retained = [])) ∧
    (∀ retained, collectLoop buildFuel fetchSpans summaries = some retained →
      summaries ≠ [] → retained ≠ [] →
      collectTraces pagingFuel buildFuel backend fetchSpans size pageSize =
        some (Except.ok
          { requested_trace_limit := size
            collected_traces := retained.length
            available_total := total
            services_discovered :=
              sortedSet (retained.flatMap (fun t => t.services_involved))
            traces := retained })) ∧
    (∀ s rest e, fetchSpans s.trace_id = Except.error e →
      collectLoop buildFuel fetchSpans (s :: rest) =
        collectLoop buildFuel fetchSpans rest) := by
  refine ⟨?_, ?_, ?_, ?_⟩
  · by_cases hs : summaries = []
    · subst hs
      simp [collectTraces, hdisc]
    · simp only [collectTraces, hdisc]
      rw [if_neg (by simpa using hs)]
      cases hcl : collectLoop buildFuel fetchSpans summaries with
      | none => simp [hs]
      | some retained =>
        by_cases hr : retained.isEmpty <;> simp [hr, hs]
  · intro retained hcl
    by_cases hs : summaries = []
    · subst hs
      simp [collectTraces, hdisc]
    · by_cases hr : retained.isEmpty = true
      · have hr2 : retained = [] := by simpa using hr
        simp [collectTraces, hdisc, hs, hcl, hr, hr2]
      · have hr2 : ¬ retained = [] := by simpa using hr
        simp [collectTraces, hdisc, hs, hcl, hr, hr2]
  · intro retained hcl hs hr
    have hre : retained.isEmpty = false := by simpa using hr
    simp [collectTraces, hdisc, hs, hcl, hre]
  · intro s rest e hfail
    simp [collectLoop, retainTrace, hfail]

/-- Witness for C8: a backend with two summaries where the fetch of `t1`
raises and the fetch of `t2` yields one usable span — the failure is
absorbed and the run returns the artifact with the single retained trace
record. -/
theorem claim_C8_witness :
    collectTraces 5 2 twoBackend mixedFetch 0 200 =
      some (Except.ok
        { requested_trace_limit := 0
          collected_traces := c8Retained.length
          available_total := 2
          services_discovered :=
            sortedSet (c8Retained.flatMap (fun t => t.services_involved))
          traces := c8Retained }) ∧
    c8Retained ≠ [] := by
  have h := claim_C8 5 2 twoBackend mixedFetch 0 200 twoSummaries 2 rfl
  have hcl : collectLoop 2 mixedFetch twoSummaries = some c8Retained := rfl
  exact ⟨h.2.2.1 c8Retained hcl (by decide) (by decide), by decide⟩

/-! ## Bridge lemmas: from the stage functions to explicit descriptions -/

theorem mkNodeId_ne_empty (seg : String) (sp : Int) : mkNodeId seg sp ≠ "" := by
  intro h
  have hlen : (mkNodeId seg sp).length = 0 := by rw [h]; rfl
  rw [mkNodeId, String.length_append, String.length_append] at hlen
  have hc : (":" : String).length = 1 := rfl
  rw [hc] at hlen
  omega

theorem nidOf?_stage1Map (s : RawSpan) : nidOf? (stage1Map s) = nidOf? s := by
  cases h : nidOf? s with
  | none => simp [stage1Map, h]
  | some nid =>
    simp only [stage1Map, h]
    rw [show nidOf? { s with nodeIdField := some nid } = nidOf? s from rfl, h]

theorem resolveParent_stage1Map (s : RawSpan) :
    resolveParent (stage1Map s) = resolveParent s := by
  cases h : nidOf? s with
  | none => simp [stage1Map, h]
  | some nid =>
    simp only [stage1Map, h]
    exact (rfl : resolveParent { s with nodeIdField := some nid } =
      resolveParent s)

theorem nidOf?_shape (s : RawSpan) (nid : String) (hn : nidOf? s = some nid) :
    ∃ seg sp, s.segmentId = some seg ∧ s.spanId = some sp ∧
      nid = mkNodeId seg sp := by
  rw [nidOf?] at hn
  cases hseg : s.segmentId with
  | none => rw [hseg] at hn; exact absurd hn (by simp)
  | some seg =>
    cases hsp : s.spanId with
    | none => rw [hseg, hsp] at hn; exact absurd hn (by simp)
    | some sp =>
      rw [hseg, hsp] at hn
      simp only [Option.some.injEq] at hn
      exact ⟨seg, sp, rfl, rfl, hn.symm⟩

theorem procNid_stage1Map (s : RawSpan) (h : s.nodeIdField = none) :
    procNid (stage1Map s) = nidOf? s := by
  cases hn : nidOf? s with
  | none =>
    simp [stage1Map, hn, procNid, optStrTruthy, h]
  | some nid =>
    simp only [stage1Map, hn]
    obtain ⟨seg, sp, _, _, hnid⟩ := nidOf?_shape s nid hn
    subst hnid
    simp [procNid, optStrTruthy, mkNodeId_ne_empty]

theorem validNodeIds_post (spans : List RawSpan) :
    validNodeIds (buildPostSpans spans) = validNodeIds spans := by
  rw [buildPostSpans_eq, validNodeIds, validNodeIds, List.filterMap_map]
  congr 1
  funext s
  exact nidOf?_stage1Map s

theorem procNodeIds_post (spans : List RawSpan)
    (h0 : ∀ s ∈ spans, s.nodeIdField = none) :
    procNodeIds (buildPostSpans spans) = validNodeIds spans := by
  rw [buildPostSpans_eq, procNodeIds, List.filterMap_map, validNodeIds]
  exact List.filterMap_congr (fun s hs => procNid_stage1Map s (h0 s hs))

theorem validNodeIds_ne_empty (spans : List RawSpan) (x : String)
    (hx : x ∈ validNodeIds spans) : x ≠ "" := by
  rw [validNodeIds, List.mem_filterMap] at hx
  obtain ⟨s, _, hs⟩ := hx
  rw [nidOf?] at hs
  cases hseg : s.segmentId <;> cases hsp : s.spanId <;> simp [hseg, hsp] at hs
  rw [← hs]
  exact mkNodeId_ne_empty _ _

theorem dictKeys_insert_mem_iff {α : Type} (d : Dict α) (k key : String)
    (v : α) :
    k ∈ dictKeys (dictInsert d key v) ↔ k ∈ dictKeys d ∨ k = key := by
  by_cases hm : key ∈ dictKeys d
  · rw [dictKeys_insert_of_mem d key v hm]
    constructor
    · exact Or.inl
    · rintro (h | h)
      · exact h
      · exact h ▸ hm
  · rw [dictKeys_insert_of_not_mem d key v hm]
    simp

theorem dictGet?_setdefault {α : Type} (d : Dict α) (key k : String) (v : α) :
    dictGet? (dictSetdefault d key v) k =
      match dictGet? d k with
      | some l => some l
      | none => if k = key then some v else none := by
  rw [dictSetdefault]
  by_cases hm : (dictGet? d key).isSome = true
  · rw [if_pos hm]
    cases hd : dictGet? d k with
    | some l => simp
    | none =>
      have hk : ¬ k = key := by
        intro he; subst he; rw [hd] at hm; simp at hm
      simp [hk]
  · rw [if_neg hm, dictGet?_append]
    cases hd : dictGet? d k with
    | some l => simp
    | none =>
      by_cases hk : k = key
      · subst hk; simp [dictGet?]
      · have hk2 : ¬ key = k := fun h => hk h.symm
        simp [dictGet?, hk, hk2]

theorem dictGet?_some_mem {α : Type} (d : Dict α) (k : String) (v : α)
    (h : dictGet? d k = some v) : (k, v) ∈ d := by
  induction d with
  | nil => simp [dictGet?] at h
  | cons kv rest ih =>
    obtain ⟨k0, w⟩ := kv
    by_cases h0 : k0 = k
    · subst h0
      rw [dictGet?, if_pos rfl] at h
      injection h with h
      subst h
      exact List.mem_cons_self _ _
    · rw [dictGet?, if_neg h0] at h
      exact List.mem_cons_of_mem _ (ih h)

theorem validNodeIds_cons (s : RawSpan) (rest : List RawSpan) :
    validNodeIds (s :: rest) =
      match nidOf? s with
      | some nid => nid :: validNodeIds rest
      | none => validNodeIds rest := by
  rw [validNodeIds, List.filterMap_cons]
  cases nidOf? s <;> rfl

theorem stage1Go_nodes_mem (nodes : Dict RawSpan) (ch : Dict (List String))
    (spans : List RawSpan) (k : String) :
    k ∈ dictKeys (stage1Go nodes ch spans).2.1 ↔
      k ∈ dictKeys nodes ∨ k ∈ validNodeIds spans := by
  induction spans generalizing nodes ch with
  | nil => simp [stage1Go, validNodeIds]
  | cons s rest ih =>
    rw [validNodeIds_cons]
    cases hseg : s.segmentId with
    | none =>
      have hn : nidOf? s = none := by simp [nidOf?, hseg]
      rw [hn]
      simp only [stage1Go, hseg]
      exact ih nodes ch
    | some seg =>
      cases hsp : s.spanId with
      | none =>
        have hn : nidOf? s = none := by simp [nidOf?, hseg, hsp]
        rw [hn]
        simp only [stage1Go, hseg, hsp]
        exact ih nodes ch
      | some sp =>
        have hn : nidOf? s = some (mkNodeId seg sp) := by
          simp [nidOf?, hseg, hsp]
        rw [hn]
        simp only [stage1Go, hseg, hsp]
        rw [ih]
        rw [dictKeys_insert_mem_iff]
        constructor
        · rintro ((h | h) | h)
          · exact Or.inl h
          · exact Or.inr (by simp [h])
          · exact Or.inr (by simp [h])
        · rintro (h | h)
          · exact Or.inl (Or.inl h)
          · rcases List.mem_cons.mp h with h | h
            · exact Or.inl (Or.inr h)
            · exact Or.inr h

theorem stage1Go_children_get (nodes : Dict RawSpan) (ch : Dict (List String))
    (spans : List RawSpan) (k : String) :
    dictGet? (stage1Go nodes ch spans).2.2 k =
      match dictGet? ch k with
      | some l => some l
      | none => if k ∈ validNodeIds spans then some [] else none := by
  induction spans generalizing nodes ch with
  | nil =>
    simp only [stage1Go, validNodeIds, List.filterMap_nil, List.not_mem_nil,
      if_false]
    cases dictGet? ch k <;> rfl
  | cons s rest ih =>
    rw [validNodeIds_cons]
    cases hseg : s.segmentId with
    | none =>
      have hn : nidOf? s = none := by simp [nidOf?, hseg]
      rw [hn]
      simp only [stage1Go, hseg]
      exact ih nodes ch
    | some seg =>
      cases hsp : s.spanId with
      | none =>
        have hn : nidOf? s = none := by simp [nidOf?, hseg, hsp]
        rw [hn]
        simp only [stage1Go, hseg, hsp]
        exact ih nodes ch
      | some sp =>
        have hn : nidOf? s = some (mkNodeId seg sp) := by
          simp [nidOf?, hseg, hsp]
        rw [hn]
        simp only [stage1Go, hseg, hsp]
        rw [ih, dictGet?_setdefault]
        cases hch : dictGet? ch k with
        | some l => rfl
        | none =>
          by_cases hk : k = mkNodeId seg sp
          · subst hk
            simp
          · have hk2 : k ∈ mkNodeId seg sp :: validNodeIds rest ↔
                k ∈ validNodeIds rest := by
              simp [List.mem_cons, hk]
            rw [if_neg hk]
            by_cases hr : k ∈ validNodeIds rest
            · simp [hr, hk2]
            · simp [hr, hk2]

theorem procNid_of_truthy (s : RawSpan) (ht : optStrTruthy s.nodeIdField = true) :
    procNid s = some (s.nodeIdField.getD "") := by
  simp [procNid, ht]

theorem procNid_of_not_truthy (s : RawSpan)
    (ht : ¬ optStrTruthy s.nodeIdField = true) : procNid s = none := by
  simp [procNid, ht]

theorem procNodeIds_cons (s : RawSpan) (rest : List RawSpan) :
    procNodeIds (s :: rest) =
      match procNid s with
      | some nid => nid :: procNodeIds rest
      | none => procNodeIds rest := by
  rw [procNodeIds, List.filterMap_cons]
  cases procNid s <;> rfl

theorem lastResolved_cons (s : RawSpan) (rest : List RawSpan) (y : String) :
    lastResolved (s :: rest) y =
      match lastResolved rest y with
      | some v => some v
      | none => if procNid s = some y then some (resolveParent s) else none :=
  rfl

theorem stage2Go_parents_get (parents : Dict (Option String))
    (ch : Dict (List String)) (spans : List RawSpan) (y : String) :
    dictGet? (stage2Go parents ch spans).1 y =
      match lastResolved spans y with
      | some v => some v
      | none => dictGet? parents y := by
  induction spans generalizing parents ch with
  | nil => rfl
  | cons s rest ih =>
    rw [lastResolved_cons]
    by_cases ht : optStrTruthy s.nodeIdField = true
    · have hp := procNid_of_truthy s ht
      simp only [stage2Go, ht, if_true]
      rw [ih]
      cases hlr : lastResolved rest y with
      | some v => rfl
      | none =>
        rw [dictGet?_insert]
        rw [hp]
        by_cases hy : s.nodeIdField.getD "" = y
        · rw [if_pos hy, if_pos (by rw [hy])]
        · rw [if_neg hy, if_neg (by simpa using hy)]
    · have hp := procNid_of_not_truthy s ht
      simp only [stage2Go, ht, if_false, Bool.false_eq_true]
      rw [ih, hp]
      cases hlr : lastResolved rest y with
      | some v => rfl
      | none => simp

theorem stage2Go_children_keys (parents : Dict (Option String))
    (ch : Dict (List String)) (spans : List RawSpan) :
    dictKeys (stage2Go parents ch spans).2 = dictKeys ch := by
  induction spans generalizing parents ch with
  | nil => rfl
  | cons s rest ih =>
    by_cases ht : optStrTruthy s.nodeIdField = true
    · cases hres : resolveParent s with
      | none =>
        simp only [stage2Go, ht, if_true, hres]
        exact ih _ _
      | some p =>
        simp only [stage2Go, ht, if_true, hres]
        by_cases hm : (p != "" && dictMem ch p) = true
        · rw [if_pos hm, ih, dictKeys_appendAt]
        · rw [if_neg hm, ih]
    · simp only [stage2Go, ht, if_false, Bool.false_eq_true]
      exact ih _ _

theorem childAppends_cons (x : String) (s : RawSpan) (rest : List RawSpan) :
    childAppends x (s :: rest) =
      match procNid s with
      | some nid =>
        if resolveParent s = some x ∧ x ≠ "" then nid :: childAppends x rest
        else childAppends x rest
      | none => childAppends x rest := by
  rw [childAppends, List.filterMap_cons]
  cases procNid s with
  | none => rfl
  | some nid =>
    by_cases hc : resolveParent s = some x ∧ x ≠ ""
    · simp [hc, childAppends]
    · simp [hc, childAppends]

theorem stage2Go_children_get (parents : Dict (Option String))
    (ch : Dict (List String)) (spans : List RawSpan) (x : String) :
    dictGet? (stage2Go parents ch spans).2 x =
      (dictGet? ch x).map (fun l => l ++ childAppends x spans) := by
  induction spans generalizing parents ch with
  | nil =>
    rw [show childAppends x [] = [] from rfl]
    cases h : dictGet? ch x <;> simp [stage2Go, h]
  | cons s rest ih =>
    rw [childAppends_cons]
    by_cases ht : optStrTruthy s.nodeIdField = true
    · have hp := procNid_of_truthy s ht
      rw [hp]
      cases hres : resolveParent s with
      | none =>
        simp only [stage2Go, ht, if_true, hres]
        rw [ih]
        simp
      | some p =>
        simp only [stage2Go, ht, if_true, hres]
        by_cases hm : (p != "" && dictMem ch p) = true
        · rw [if_pos hm, ih, dictGet?_appendAt]
          by_cases hx : x = p
          · subst hx
            have hne : x ≠ "" := by
              have h2 := hm
              rw [Bool.and_eq_true] at h2
              simpa using h2.1
            rw [if_pos rfl]
            cases hg : dictGet? ch x <;> simp [hne, List.append_assoc]
          · have hpx : ¬ (some p = some x ∧ x ≠ "") := by
              rintro ⟨h, _⟩
              injection h with h
              exact hx h.symm
            rw [if_neg hx, if_neg hpx]
        · rw [if_neg hm, ih]
          by_cases hcx : p = x
          · subst hcx
            by_cases hne : p = ""
            · have hpx : ¬ (some p = some p ∧ p ≠ "") := by
                rintro ⟨_, h⟩
                exact h hne
              rw [if_neg hpx]
            · have hneb : (p != "") = true := by simpa using hne
              have hmem : dictMem ch p = false := by
                rcases Bool.eq_false_or_eq_true (dictMem ch p) with h | h
                · exact absurd (by rw [Bool.and_eq_true]; exact ⟨hneb, h⟩) hm
                · exact h
              have hnone : dictGet? ch p = none := by
                rw [dictMem] at hmem
                cases hg : dictGet? ch p with
                | none => rfl
                | some l => rw [hg] at hmem; simp at hmem
              rw [hnone]
              rfl
          · have hpx : ¬ (some p = some x ∧ x ≠ "") := by
              rintro ⟨h, _⟩
              injection h with h
              exact hcx h
            rw [if_neg hpx]
    · have hp := procNid_of_not_truthy s ht
      rw [hp]
      simp only [stage2Go, ht, if_false, Bool.false_eq_true]
      exact ih _ _

theorem stage2Go_parents_keys_mem (parents : Dict (Option String))
    (ch : Dict (List String)) (spans : List RawSpan) (y : String) :
    y ∈ dictKeys (stage2Go parents ch spans).1 ↔
      y ∈ dictKeys parents ∨ y ∈ procNodeIds spans := by
  induction spans generalizing parents ch with
  | nil => simp [stage2Go, procNodeIds]
  | cons s rest ih =>
    rw [procNodeIds_cons]
    by_cases ht : optStrTruthy s.nodeIdField = true
    · have hp := procNid_of_truthy s ht
      rw [hp]
      simp only [stage2Go, ht, if_true]
      rw [ih, dictKeys_insert_mem_iff]
      constructor
      · rintro ((h | h) | h)
        · exact Or.inl h
        · exact Or.inr (by simp [h])
        · exact Or.inr (by simp [h])
      · rintro (h | h)
        · exact Or.inl (Or.inl h)
        · rcases List.mem_cons.mp h with h | h
          · exact Or.inl (Or.inr h)
          · exact Or.inr h
    · have hp := procNid_of_not_truthy s ht
      rw [hp]
      simp only [stage2Go, ht, if_false, Bool.false_eq_true]
      exact ih _ _

theorem stage2Go_parents_nodup (parents : Dict (Option String))
    (ch : Dict (List String)) (spans : List RawSpan)
    (h : (dictKeys parents).Nodup) :
    (dictKeys (stage2Go parents ch spans).1).Nodup := by
  induction spans generalizing parents ch with
  | nil => exact h
  | cons s rest ih =>
    by_cases ht : optStrTruthy s.nodeIdField = true
    · simp only [stage2Go, ht, if_true]
      exact ih _ _ (dictKeys_nodup_insert _ _ _ h)
    · simp only [stage2Go, ht, if_false, Bool.false_eq_true]
      exact ih _ _ h

theorem stage2Go_parents_of_fresh (parents : Dict (Option String))
    (ch : Dict (List String)) (spans : List RawSpan)
    (hnd : (procNodeIds spans).Nodup)
    (hfresh : ∀ n ∈ procNodeIds spans, n ∉ dictKeys parents) :
    (stage2Go parents ch spans).1 =
      parents ++ spans.filterMap (fun s =>
        (procNid s).map (fun nid => (nid, resolveParent s))) := by
  induction spans generalizing parents ch with
  | nil => simp [stage2Go]
  | cons s rest ih =>
    rw [List.filterMap_cons]
    by_cases ht : optStrTruthy s.nodeIdField = true
    · have hp := procNid_of_truthy s ht
      rw [hp]
      simp only [stage2Go, ht, if_true, Option.map_some]
      rw [procNodeIds_cons, hp] at hnd hfresh
      have hnid : s.nodeIdField.getD "" ∉ dictKeys parents :=
        hfresh _ (List.mem_cons_self _ _)
      rw [ih _ _ (List.nodup_cons.mp hnd).2]
      · rw [dictInsert_eq_append_of_not_mem _ _ _ hnid]
        rw [List.append_assoc]
        rfl
      · intro n hn
        rw [dictInsert_eq_append_of_not_mem _ _ _ hnid]
        simp only [dictKeys_append, List.mem_append]
        rintro (h | h)
        · exact hfresh n (List.mem_cons_of_mem _ hn) h
        · simp only [dictKeys_cons, dictKeys_nil] at h
          rcases List.mem_cons.mp h with h | h
          · exact (List.nodup_cons.mp hnd).1 (h ▸ hn)
          · simp at h
    · have hp := procNid_of_not_truthy s ht
      rw [hp]
      simp only [stage2Go, ht, if_false, Bool.false_eq_true]
      rw [procNodeIds_cons, hp] at hnd hfresh
      exact ih _ _ hnd hfresh

theorem stage4_eq (parents : Dict (Option String))
    (ch : Dict (List String)) (depths : Dict Nat) (spans : List RawSpan) :
    stage4 parents ch depths spans = spans.filterMap (fun s =>
      (procNid s).map (fun nid => mkSpanRecord parents ch depths s nid)) := by
  induction spans with
  | nil => rfl
  | cons s rest ih =>
    rw [List.filterMap_cons]
    by_cases ht : optStrTruthy s.nodeIdField = true
    · rw [procNid_of_truthy s ht]
      simp only [stage4, ht, if_true, Option.map_some]
      rw [ih]
      rfl
    · rw [procNid_of_not_truthy s ht]
      simp only [stage4, ht, if_false, Bool.false_eq_true, Option.map_none]
      rw [ih]
      rfl

theorem stage4_node_ids (parents : Dict (Option String))
    (ch : Dict (List String)) (depths : Dict Nat) (spans : List RawSpan) :
    (stage4 parents ch depths spans).map SpanRecord.node_id =
      procNodeIds spans := by
  rw [stage4_eq, List.map_filterMap, procNodeIds]
  congr 1
  funext s
  cases procNid s <;> rfl

theorem mem_stage4 (parents : Dict (Option String))
    (ch : Dict (List String)) (depths : Dict Nat) (spans : List RawSpan)
    (rec : SpanRecord) :
    rec ∈ stage4 parents ch depths spans ↔
      ∃ s ∈ spans, ∃ nid, procNid s = some nid ∧
        rec = mkSpanRecord parents ch depths s nid := by
  rw [stage4_eq, List.mem_filterMap]
  constructor
  · rintro ⟨s, hs, hmap⟩
    cases hp : procNid s with
    | none =>
      rw [hp] at hmap
      exact absurd hmap (by simp [Option.map_none])
    | some nid =>
      rw [hp] at hmap
      rw [show (some nid).map (fun nid => mkSpanRecord parents ch depths s nid) =
        some (mkSpanRecord parents ch depths s nid) from rfl] at hmap
      injection hmap with hmap
      exact ⟨s, hs, nid, hp, hmap.symm⟩
  · rintro ⟨s, hs, nid, hp, hrec⟩
    exact ⟨s, hs, by rw [hp, hrec]; rfl⟩

theorem mem_rootsOf (parents : Dict (Option String)) (nodes : Dict RawSpan)
    (nid : String) (hnd : (dictKeys parents).Nodup) :
    nid ∈ rootsOf parents nodes ↔
      ∃ pv, dictGet? parents nid = some pv ∧
        (pv = none ∨ ∃ p, pv = some p ∧ dictMem nodes p = false) := by
  rw [rootsOf, List.mem_map]
  constructor
  · rintro ⟨kv, hkv, hfst⟩
    rw [List.mem_filter] at hkv
    obtain ⟨hmem, hpred⟩ := hkv
    obtain ⟨k, pv⟩ := kv
    simp only at hfst
    subst hfst
    refine ⟨pv, dictGet?_of_mem_nodup _ _ _ hnd hmem, ?_⟩
    cases pv with
    | none => exact Or.inl rfl
    | some p =>
      refine Or.inr ⟨p, rfl, ?_⟩
      simp only [Bool.not_eq_true'] at hpred
      exact hpred
  · rintro ⟨pv, hget, hcond⟩
    refine ⟨(nid, pv), ?_, rfl⟩
    rw [List.mem_filter]
    refine ⟨dictGet?_some_mem _ _ _ hget, ?_⟩
    cases pv with
    | none => rfl
    | some p =>
      rcases hcond with h | ⟨p2, hp2, hmem⟩
      · exact absurd h (by simp)
      · injection hp2 with hp2
        subst hp2
        simp only [Bool.not_eq_true']
        exact hmem

theorem buildParents_get (spans : List RawSpan) (y : String) :
    dictGet? (buildParents spans) y = lastResolved (buildPostSpans spans) y := by
  rw [buildParents, stage2Result, stage2Go_parents_get]
  cases lastResolved (buildPostSpans spans) y <;> rfl

theorem buildParents_keys_mem (spans : List RawSpan) (y : String)
    (h0 : ∀ s ∈ spans, s.nodeIdField = none) :
    y ∈ dictKeys (buildParents spans) ↔ y ∈ validNodeIds spans := by
  rw [buildParents, stage2Result, stage2Go_parents_keys_mem,
    procNodeIds_post spans h0]
  simp

theorem buildParents_nodup (spans : List RawSpan) :
    (dictKeys (buildParents spans)).Nodup := by
  rw [buildParents, stage2Result]
  exact stage2Go_parents_nodup _ _ _ (by simp)

theorem buildNodes_mem (spans : List RawSpan) (p : String) :
    dictMem (buildNodes spans) p = true ↔ p ∈ validNodeIds spans := by
  rw [dictMem_iff_mem_keys, buildNodes, stage1Result, stage1Go_nodes_mem]
  simp

theorem childrenInit_get (spans : List RawSpan) (k : String) :
    dictGet? (childrenInit spans) k =
      if k ∈ validNodeIds spans then some [] else none := by
  rw [childrenInit, stage1Result, stage1Go_children_get]
  rfl

theorem buildChildren_get (spans : List RawSpan) (x : String) :
    dictGet? (buildChildren spans) x =
      if x ∈ validNodeIds spans then
        some (childAppends x (buildPostSpans spans))
      else none := by
  rw [buildChildren, stage2Result, stage2Go_children_get, childrenInit_get]
  by_cases hx : x ∈ validNodeIds spans
  · simp [hx]
  · simp [hx]

theorem build_records_shape (spans : List RawSpan) (fuel : Nat)
    (recs : List SpanRecord) (rts : List String)
    (hbuild : buildSpanRecords fuel spans = some (recs, rts)) :
    ∃ depths, bfsDepths (buildChildren spans) fuel
        ((buildRoots spans).map (fun r => (r, 0))) [] = some depths ∧
      recs = stage4 (buildParents spans) (buildChildren spans) depths
        (buildPostSpans spans) ∧
      rts = buildRoots spans := by
  rw [buildSpanRecords] at hbuild
  cases hbfs : bfsDepths (buildChildren spans) fuel
      ((buildRoots spans).map (fun r => (r, 0))) [] with
  | none =>
    rw [hbfs] at hbuild
    exact absurd hbuild (by simp)
  | some depths =>
    rw [hbfs] at hbuild
    simp only [Option.some.injEq, Prod.mk.injEq] at hbuild
    exact ⟨depths, rfl, hbuild.1.symm, hbuild.2.symm⟩

/-! ## Claim C3 -/

/-- C3: for every raw span set, a node identifier is in the returned root
list exactly when some returned record carries it with a `parent_node_id`
that is null or names no node identifier present in the output; in
particular a dangling parent reference puts the span in the root list even
though its `parent_node_id` is non-null. -/
theorem claim_C3 (spans : List RawSpan) (fuel : Nat)
    (recs : List SpanRecord) (rts : List String)
    (h0 : ∀ s ∈ spans, s.nodeIdField = none)
    (hbuild : buildSpanRecords fuel spans = some (recs, rts)) (nid : String) :
    nid ∈ rts ↔ ∃ rec ∈ recs, rec.node_id = nid ∧
      (rec.parent_node_id = none ∨
       ∃ p, rec.parent_node_id = some p ∧
         p ∉ recs.map SpanRecord.node_id) := by
  obtain ⟨depths, hbfs, hrecs, hrts⟩ :=
    build_records_shape spans fuel recs rts hbuild
  subst hrecs
  subst hrts
  have hids : (stage4 (buildParents spans) (buildChildren spans) depths
      (buildPostSpans spans)).map SpanRecord.node_id = validNodeIds spans := by
    rw [stage4_node_ids, procNodeIds_post spans h0]
  rw [buildRoots, mem_rootsOf _ _ _ (buildParents_nodup spans)]
  constructor
  · rintro ⟨pv, hget, hcond⟩
    have hmemk : nid ∈ dictKeys (buildParents spans) :=
      (dictGet?_isSome_iff_mem_keys _ _).mp (by rw [hget]; rfl)
    have hvalid : nid ∈ validNodeIds spans :=
      (buildParents_keys_mem spans nid h0).mp hmemk
    have hrid : nid ∈ (stage4 (buildParents spans) (buildChildren spans)
        depths (buildPostSpans spans)).map SpanRecord.node_id := by
      rw [hids]; exact hvalid
    rw [List.mem_map] at hrid
    obtain ⟨rec, hrec, hrnid⟩ := hrid
    refine ⟨rec, hrec, hrnid, ?_⟩
    have hpar : rec.parent_node_id = pv := by
      rw [mem_stage4] at hrec
      obtain ⟨s, _, nid2, _, hrec2⟩ := hrec
      have hn2 : nid2 = nid := by
        have hh : rec.node_id = nid2 := by rw [hrec2]; rfl
        rw [← hrnid, hh]
      rw [hrec2]
      show (dictGet? (buildParents spans) nid2).getD none = pv
      rw [hn2, hget]
      rfl
    rcases hcond with h | ⟨p, hp, hmem⟩
    · exact Or.inl (by rw [hpar, h])
    · refine Or.inr ⟨p, by rw [hpar, hp], ?_⟩
      rw [hids]
      intro hc
      rw [← buildNodes_mem spans p] at hc
      rw [hc] at hmem
      exact Bool.noConfusion hmem
  · rintro ⟨rec, hrec, hrnid, hcond⟩
    have hrec2 := hrec
    rw [mem_stage4] at hrec2
    obtain ⟨s, hs, nid2, hproc, hmk⟩ := hrec2
    have hnid2 : rec.node_id = nid2 := by rw [hmk]; rfl
    have hvalid : nid ∈ validNodeIds spans := by
      rw [← procNodeIds_post spans h0, procNodeIds, List.mem_filterMap]
      exact ⟨s, hs, by rw [hproc, ← hnid2, hrnid]⟩
    have hmemk : nid ∈ dictKeys (buildParents spans) :=
      (buildParents_keys_mem spans nid h0).mpr hvalid
    obtain ⟨pv, hget⟩ : ∃ pv, dictGet? (buildParents spans) nid = some pv := by
      cases hg : dictGet? (buildParents spans) nid with
      | none =>
        exact absurd ((dictGet?_isSome_iff_mem_keys _ _).mpr hmemk)
          (by rw [hg]; simp)
      | some pv => exact ⟨pv, rfl⟩
    have hpar : rec.parent_node_id = pv := by
      rw [hmk]
      show (dictGet? (buildParents spans) nid2).getD none = pv
      rw [← hnid2, hrnid, hget]
      rfl
    refine ⟨pv, hget, ?_⟩
    rcases hcond with h | ⟨p, hp, hmem⟩
    · exact Or.inl (by rw [← hpar, h])
    · refine Or.inr ⟨p, by rw [← hpar, hp], ?_⟩
      rw [hids] at hmem
      rcases Bool.eq_false_or_eq_true (dictMem (buildNodes spans) p) with h | h
      · exact absurd ((buildNodes_mem spans p).mp h) hmem
      · exact h

/-- Witness for C3: the single dangling span (resolved parent `Z:5`
matches no node) is in the root list while its record's `parent_node_id`
is the non-null `Z:5`. -/
theorem claim_C3_witness :
    "A:0" ∈ dangBuildOut.2 ↔
      ∃ rec ∈ dangBuildOut.1, rec.node_id = "A:0" ∧
        (rec.parent_node_id = none ∨
         ∃ p, rec.parent_node_id = some p ∧
           p ∉ dangBuildOut.1.map SpanRecord.node_id) :=
  claim_C3 [dangSpan] 2 dangBuildOut.1 dangBuildOut.2
    (by intro s hs; simp only [List.mem_singleton] at hs; rw [hs]; rfl)
    rfl "A:0"

theorem lastResolved_none_of_not_mem (l : List RawSpan) (nid : String)
    (h : nid ∉ procNodeIds l) : lastResolved l nid = none := by
  induction l with
  | nil => rfl
  | cons t rest ih =>
    rw [lastResolved_cons]
    rw [procNodeIds_cons] at h
    cases hp : procNid t with
    | none =>
      rw [hp] at h
      have h2 : nid ∉ procNodeIds rest := h
      simp [ih h2, hp]
    | some m =>
      rw [hp] at h
      have h2 : nid ∉ m :: procNodeIds rest := h
      have hm : nid ∉ procNodeIds rest := fun hc =>
        h2 (List.mem_cons_of_mem _ hc)
      have hne : ¬ (m = nid) := fun hc =>
        h2 (hc ▸ List.mem_cons_self _ _)
      simp [ih hm, hp, hne]

theorem lastResolved_unique (l : List RawSpan)
    (hnd : (procNodeIds l).Nodup) (s : RawSpan) (nid : String)
    (hs : s ∈ l) (hp : procNid s = some nid) :
    lastResolved l nid = some (resolveParent s) := by
  induction l with
  | nil => cases hs
  | cons t rest ih =>
    rw [lastResolved_cons]
    rw [procNodeIds_cons] at hnd
    rcases List.mem_cons.mp hs with h | h
    · subst h
      rw [hp] at hnd
      have hnin : nid ∉ procNodeIds rest := (List.nodup_cons.mp hnd).1
      rw [lastResolved_none_of_not_mem rest nid hnin, hp]
      simp
    · have hnd2 : (procNodeIds rest).Nodup := by
        cases hq : procNid t with
        | none => rw [hq] at hnd; exact hnd
        | some m => rw [hq] at hnd; exact (List.nodup_cons.mp hnd).2
      rw [ih hnd2 h]

theorem mem_childAppends (x nid : String) (l : List RawSpan) :
    x ∈ childAppends nid l ↔
      ∃ s ∈ l, procNid s = some x ∧ resolveParent s = some nid ∧ nid ≠ "" := by
  rw [childAppends, List.mem_filterMap]
  constructor
  · rintro ⟨s, hs, hval⟩
    cases hp : procNid s with
    | none =>
      rw [hp] at hval
      have hval2 : (none : Option String) = some x := hval
      exact absurd hval2 (by simp)
    | some nid2 =>
      rw [hp] at hval
      have hval2 : (if resolveParent s = some nid ∧ nid ≠ "" then some nid2
          else none) = some x := hval
      by_cases hc : resolveParent s = some nid ∧ nid ≠ ""
      · rw [if_pos hc] at hval2
        injection hval2 with hval2
        subst hval2
        exact ⟨s, hs, hp, hc⟩
      · rw [if_neg hc] at hval2
        exact absurd hval2 (by simp)
  · rintro ⟨s, hs, hp, hc⟩
    refine ⟨s, hs, ?_⟩
    rw [hp]
    show (if resolveParent s = some nid ∧ nid ≠ "" then some x else none) =
      some x
    rw [if_pos hc]

/-! ## Claim C5 -/

/-- C5 corrected: every returned node's depth is non-negative always; and
when the raw spans carry pairwise-distinct `segment_id`/`span_id` node
identifiers — which the counterexample shows is necessary — no node
identifier appears twice in the returned node list. -/
theorem claim_C5 (spans : List RawSpan) (fuel : Nat)
    (recs : List SpanRecord) (rts : List String)
    (h0 : ∀ s ∈ spans, s.nodeIdField = none)
    (hnd : (validNodeIds spans).Nodup)
    (hbuild : buildSpanRecords fuel spans = some (recs, rts)) :
    (recs.map SpanRecord.node_id).Nodup ∧ ∀ rec ∈ recs, 0 ≤ rec.depth := by
  obtain ⟨depths, hbfs, hrecs, hrts⟩ :=
    build_records_shape spans fuel recs rts hbuild
  subst hrecs
  constructor
  · rw [stage4_node_ids, procNodeIds_post spans h0]
    exact hnd
  · intro rec _
    exact Nat.zero_le _

/-- Witness for C5 at the three-span example (distinct node ids). -/
theorem claim_C5_witness :
    (exampleBuildOut.1.map SpanRecord.node_id).Nodup ∧
    ∀ rec ∈ exampleBuildOut.1, 0 ≤ rec.depth :=
  claim_C5 exampleSpans 4 exampleBuildOut.1 exampleBuildOut.2
    (by decide) (by decide) rfl

/-! ## Claim C6 -/

/-- C6 corrected: when the raw spans carry pairwise-distinct node
identifiers — which the counterexample shows is necessary — a node id is
in some record's `children_node_ids` exactly when it is the node id of a
record whose `parent_node_id` names a node id present in the output (the
children map is then the exact inversion of the resolved parent map). -/
theorem claim_C6 (spans : List RawSpan) (fuel : Nat)
    (recs : List SpanRecord) (rts : List String)
    (h0 : ∀ s ∈ spans, s.nodeIdField = none)
    (hnd : (validNodeIds spans).Nodup)
    (hbuild : buildSpanRecords fuel spans = some (recs, rts)) (x : String) :
    (∃ rec ∈ recs, x ∈ rec.children_ids) ↔
      ∃ rec ∈ recs, rec.node_id = x ∧ ∃ p, rec.parent_node_id = some p ∧
        p ∈ recs.map SpanRecord.node_id := by
  obtain ⟨depths, hbfs, hrecs, hrts⟩ :=
    build_records_shape spans fuel recs rts hbuild
  subst hrecs
  have hids : (stage4 (buildParents spans) (buildChildren spans) depths
      (buildPostSpans spans)).map SpanRecord.node_id = validNodeIds spans := by
    rw [stage4_node_ids, procNodeIds_post spans h0]
  have hnd1 : (procNodeIds (buildPostSpans spans)).Nodup := by
    rw [procNodeIds_post spans h0]
    exact hnd
  constructor
  · rintro ⟨rec, hrec, hx⟩
    rw [mem_stage4] at hrec
    obtain ⟨s, hs, nid, hproc, hmk⟩ := hrec
    have hnidv : nid ∈ validNodeIds spans := by
      rw [← procNodeIds_post spans h0, procNodeIds, List.mem_filterMap]
      exact ⟨s, hs, hproc⟩
    have hch : rec.children_ids =
        childAppends nid (buildPostSpans spans) := by
      rw [hmk]
      show (dictGet? (buildChildren spans) nid).getD [] = _
      rw [buildChildren_get, if_pos hnidv]
      rfl
    rw [hch, mem_childAppends] at hx
    obtain ⟨s2, hs2, hproc2, hres2, _⟩ := hx
    have hxv : x ∈ validNodeIds spans := by
      rw [← procNodeIds_post spans h0, procNodeIds, List.mem_filterMap]
      exact ⟨s2, hs2, hproc2⟩
    refine ⟨mkSpanRecord (buildParents spans) (buildChildren spans) depths
      s2 x, (mem_stage4 _ _ _ _ _).mpr ⟨s2, hs2, x, hproc2, rfl⟩, rfl, nid,
      ?_, ?_⟩
    · show (dictGet? (buildParents spans) x).getD none = some nid
      rw [buildParents_get, lastResolved_unique _ hnd1 s2 x hs2 hproc2]
      rw [hres2]
      rfl
    · rw [hids]
      exact hnidv
  · rintro ⟨rec, hrec, hrnid, p, hpar, hpmem⟩
    rw [mem_stage4] at hrec
    obtain ⟨s, hs, nid, hproc, hmk⟩ := hrec
    have hn2 : nid = x := by
      have hh : rec.node_id = nid := by rw [hmk]; rfl
      rw [← hrnid, hh]
    subst hn2
    have hpv : p ∈ validNodeIds spans := by rw [hids] at hpmem; exact hpmem
    have hres : resolveParent s = some p := by
      have hh : rec.parent_node_id =
          (lastResolved (buildPostSpans spans) nid).getD none := by
        rw [hmk]
        show (dictGet? (buildParents spans) nid).getD none = _
        rw [buildParents_get]
      rw [lastResolved_unique _ hnd1 s nid hs hproc] at hh
      rw [hpar] at hh
      exact hh.symm
    have hpmem2 : p ∈ (stage4 (buildParents spans) (buildChildren spans)
        depths (buildPostSpans spans)).map SpanRecord.node_id := by
      rw [hids]; exact hpv
    rw [List.mem_map] at hpmem2
    obtain ⟨rec2, hrec2, hrnid2⟩ := hpmem2
    refine ⟨rec2, hrec2, ?_⟩
    have hrec2m := hrec2
    rw [mem_stage4] at hrec2m
    obtain ⟨s2, hs2, nid2, hproc2, hmk2⟩ := hrec2m
    have hn3 : nid2 = p := by
      have hh : rec2.node_id = nid2 := by rw [hmk2]; rfl
      rw [← hrnid2, hh]
    subst hn3
    have hch2 : rec2.children_ids =
        childAppends nid2 (buildPostSpans spans) := by
      rw [hmk2]
      show (dictGet? (buildChildren spans) nid2).getD [] = _
      rw [buildChildren_get, if_pos hpv]
      rfl
    rw [hch2, mem_childAppends]
    exact ⟨s, hs, hproc, hres, validNodeIds_ne_empty spans nid2 hpv⟩

/-- Witness for C6 at the three-span example: `A:1` is a child of `A:0`
and its record's parent is the known node `A:0`. -/
theorem claim_C6_witness :
    (∃ rec ∈ exampleBuildOut.1, "A:1" ∈ rec.children_ids) ↔
      ∃ rec ∈ exampleBuildOut.1, rec.node_id = "A:1" ∧
        ∃ p, rec.parent_node_id = some p ∧
          p ∈ exampleBuildOut.1.map SpanRecord.node_id :=
  claim_C6 exampleSpans 4 exampleBuildOut.1 exampleBuildOut.2
    (by decide) (by decide) rfl "A:1"

/-! ## Correctness of the stage-3 BFS on single rooted trees (claim C4) -/

section BfsTreeProof

variable {c : Dict (List String)} {Par : String → Option String}
variable {D : String → Nat} {keys : List String} {r : String}

theorem childList_nil_of_not_mem (th : TreeHyp c Par D keys r) (x : String)
    (hx : x ∉ keys) : (dictGet? c x).getD [] = [] := by
  have hnk : x ∉ dictKeys c := fun hc => hx ((th.ckeys x).mp hc)
  rw [dictGet?_eq_none_of_not_mem _ _ hnk]
  rfl

theorem child_mem_keys (th : TreeHyp c Par D keys r) {x y : String}
    (hy : y ∈ (dictGet? c x).getD []) :
    x ∈ keys ∧ y ∈ keys ∧ Par y = some x := by
  by_cases hx : x ∈ keys
  · have h := (th.childIff x hx y).mp hy
    exact ⟨hx, h.1, h.2⟩
  · rw [childList_nil_of_not_mem th x hx] at hy
    cases hy

theorem child_ne_root (th : TreeHyp c Par D keys r) {x y : String}
    (hy : y ∈ (dictGet? c x).getD []) : y ≠ r := by
  obtain ⟨hx, _, hPar⟩ := child_mem_keys th hy
  intro he
  subst he
  exact th.rootPar x hPar hx

theorem child_depth (th : TreeHyp c Par D keys r) {x y : String}
    (hy : y ∈ (dictGet? c x).getD []) : D y = D x + 1 := by
  obtain ⟨hx, hyk, hPar⟩ := child_mem_keys th hy
  obtain ⟨z, hz, hPz, hD⟩ := th.step y hyk (child_ne_root th hy)
  rw [hPar] at hPz
  injection hPz with hPz
  rw [hD, hPz]

theorem no_self_child (th : TreeHyp c Par D keys r) {x : String}
    (hy : x ∈ (dictGet? c x).getD []) : False := by
  obtain ⟨hx, _, hPar⟩ := child_mem_keys th hy
  by_cases hr : x = r
  · subst hr
    exact th.rootPar x hPar hx
  · obtain ⟨z, hz, hPz, hD⟩ := th.step x hx hr
    rw [hPar] at hPz
    injection hPz with hPz
    subst hPz
    omega

theorem child_unique_parent (th : TreeHyp c Par D keys r) {x x' y : String}
    (h1 : y ∈ (dictGet? c x).getD []) (h2 : y ∈ (dictGet? c x').getD []) :
    x = x' := by
  obtain ⟨_, _, p1⟩ := child_mem_keys th h1
  obtain ⟨_, _, p2⟩ := child_mem_keys th h2
  rw [p1] at p2
  exact Option.some.inj p2

theorem bfs_step_inv (th : TreeHyp c Par D keys r) (x : String) (d : Nat)
    (rest : List (String × Nat)) (depths : Dict Nat)
    (inv : BfsInv c Par D keys r ((x, d) :: rest) depths) :
    BfsInv c Par D keys r
      (rest ++ ((dictGet? c x).getD []).map (fun y => (y, d + 1)))
      (dictInsert depths x d) := by
  obtain ⟨hxk0, hxd0, hxnd0⟩ := inv.qMem (x, d) (List.mem_cons_self _ _)
  have hxk : x ∈ keys := hxk0
  have hxd : d = D x := hxd0
  have hxnd : x ∉ dictKeys depths := hxnd0
  have hkd' : dictKeys (dictInsert depths x d) = dictKeys depths ++ [x] :=
    dictKeys_insert_of_not_mem _ _ _ hxnd
  have hmem' : ∀ y, y ∈ dictKeys (dictInsert depths x d) ↔
      y ∈ dictKeys depths ∨ y = x := by
    intro y
    rw [hkd']
    simp
  have hqf : ((x, d) :: rest).map Prod.fst = x :: rest.map Prod.fst := rfl
  have hqnd := inv.qNodup
  rw [hqf, List.nodup_cons] at hqnd
  have hnewf : (rest ++ ((dictGet? c x).getD []).map
      (fun y => (y, d + 1))).map Prod.fst =
      rest.map Prod.fst ++ (dictGet? c x).getD [] := by
    rw [List.map_append, List.map_map]
    congr 1
    rw [show (Prod.fst ∘ fun y => (y, d + 1)) = id from rfl, List.map_id]
  have hfreshx := inv.fresh x hxnd
  constructor
  · rw [hnewf]
    refine List.Nodup.append hqnd.2 (th.childNodup x hxk) ?_
    intro y hy1 hy2
    exact ((hfreshx y hy2).1) (by rw [hqf]; exact List.mem_cons_of_mem _ hy1)
  · exact dictKeys_nodup_insert _ _ _ inv.dNodup
  · intro q hq
    rcases List.mem_append.mp hq with hq | hq
    · obtain ⟨h1, h2, h3⟩ := inv.qMem q (List.mem_cons_of_mem _ hq)
      refine ⟨h1, h2, ?_⟩
      rw [hmem' q.1]
      rintro (h | h)
      · exact h3 h
      · exact hqnd.1 (h ▸ List.mem_map_of_mem Prod.fst hq)
    · rw [List.mem_map] at hq
      obtain ⟨y, hy, hyq⟩ := hq
      obtain ⟨_, hyk, _⟩ := child_mem_keys th hy
      have hq1 : q.1 = y := by rw [← hyq]
      have hq2 : q.2 = d + 1 := by rw [← hyq]
      refine ⟨hq1 ▸ hyk, ?_, ?_⟩
      · rw [hq1, hq2, child_depth th hy, hxd]
      · rw [hq1, hmem' y]
        rintro (h | h)
        · exact (hfreshx y hy).2 h
        · subst h
          exact no_self_child th hy
  · intro y hy
    rw [hmem' y] at hy
    rcases hy with h | h
    · exact inv.dMem y h
    · exact h ▸ hxk
  · intro y hy
    rw [dictGet?_insert]
    by_cases hxy : x = y
    · subst hxy
      rw [if_pos rfl, hxd]
    · rw [if_neg hxy]
      rw [hmem' y] at hy
      rcases hy with h | h
      · exact inv.dVal y h
      · exact absurd h.symm hxy
  · rcases inv.rDisc with h | h
    · exact Or.inl ((hmem' r).mpr (Or.inl h))
    · rw [hqf] at h
      rcases List.mem_cons.mp h with h | h
      · exact Or.inl ((hmem' r).mpr (Or.inr h))
      · refine Or.inr ?_
        rw [hnewf]
        exact List.mem_append_left _ h
  · intro y hyk z hPz hz
    rw [hmem' z] at hz
    rcases hz with hz | hz
    · rcases inv.cover y hyk z hPz hz with h | h
      · exact Or.inl ((hmem' y).mpr (Or.inl h))
      · rw [hqf] at h
        rcases List.mem_cons.mp h with h | h
        · exact Or.inl ((hmem' y).mpr (Or.inr h))
        · refine Or.inr ?_
          rw [hnewf]
          exact List.mem_append_left _ h
    · subst hz
      refine Or.inr ?_
      rw [hnewf]
      refine List.mem_append_right _ ?_
      exact (th.childIff z hxk y).mpr ⟨hyk, hPz⟩
  · intro z hz y hy
    have hznd : z ∉ dictKeys depths := fun hc => hz ((hmem' z).mpr (Or.inl hc))
    have hzx : z ≠ x := fun hc => hz ((hmem' z).mpr (Or.inr hc))
    obtain ⟨hyq, hyd⟩ := inv.fresh z hznd y hy
    constructor
    · rw [hnewf]
      intro hc
      rcases List.mem_append.mp hc with hc | hc
      · exact hyq (by rw [hqf]; exact List.mem_cons_of_mem _ hc)
      · exact hzx (child_unique_parent th hy hc)
    · rw [hmem' y]
      rintro (h | h)
      · exact hyd h
      · subst h
        exact hyq (by rw [hqf]; exact List.mem_cons_self _ _)

end BfsTreeProof

section BfsTreeRun

variable {c : Dict (List String)} {Par : String → Option String}
variable {D : String → Nat} {keys : List String} {r : String}

theorem bfs_final (th : TreeHyp c Par D keys r) (depths : Dict Nat)
    (inv : BfsInv c Par D keys r [] depths) :
    ∀ y ∈ keys, dictGet? depths y = some (D y) := by
  have main : ∀ n, ∀ y, y ∈ keys → D y = n → y ∈ dictKeys depths := by
    intro n
    induction n using Nat.strongRecOn with
    | ind n ih =>
      intro y hy hD
      by_cases hr : y = r
      · subst hr
        rcases inv.rDisc with h | h
        · exact h
        · simp at h
      · obtain ⟨x, hx, hPar, hDy⟩ := th.step y hy hr
        have hxd : x ∈ dictKeys depths := ih (D x) (by omega) x hx rfl
        rcases inv.cover y hy x hPar hxd with h | h
        · exact h
        · simp at h
  intro y hy
  exact inv.dVal y (main (D y) y hy rfl)

theorem bfs_run (th : TreeHyp c Par D keys r) (fuel : Nat) :
    ∀ queue depths, BfsInv c Par D keys r queue depths →
    keys.length - (dictKeys depths).length < fuel →
    ∃ dp, bfsDepths c fuel queue depths = some dp ∧
      ∀ y ∈ keys, dictGet? dp y = some (D y) := by
  induction fuel with
  | zero =>
    intro queue depths inv hlt
    exact absurd hlt (Nat.not_lt_zero _)
  | succ fuel ih =>
    intro queue depths inv hlt
    cases queue with
    | nil =>
      exact ⟨depths, rfl, bfs_final th depths inv⟩
    | cons q rest =>
      obtain ⟨x, d⟩ := q
      have inv' := bfs_step_inv th x d rest depths inv
      have hxnd : x ∉ dictKeys depths :=
        (inv.qMem (x, d) (List.mem_cons_self _ _)).2.2
      have hkd' : dictKeys (dictInsert depths x d) = dictKeys depths ++ [x] :=
        dictKeys_insert_of_not_mem _ _ _ hxnd
      have hsub : dictKeys (dictInsert depths x d) ⊆ keys :=
        fun y hy => inv'.dMem y hy
      have hlen : (dictKeys (dictInsert depths x d)).length ≤ keys.length :=
        (List.subperm_of_subset inv'.dNodup hsub).length_le
      have hlen2 : (dictKeys (dictInsert depths x d)).length =
          (dictKeys depths).length + 1 := by
        rw [hkd']
        simp
      have hlt' : keys.length -
          (dictKeys (dictInsert depths x d)).length < fuel := by omega
      obtain ⟨dp, hdp, hprop⟩ := ih _ _ inv' hlt'
      refine ⟨dp, ?_, hprop⟩
      rw [show bfsDepths c (fuel + 1) ((x, d) :: rest) depths =
        bfsDepths c fuel
          (rest ++ ((dictGet? c x).getD []).map (fun y => (y, d + 1)))
          (dictInsert depths x d) from rfl]
      exact hdp

theorem bfs_tree (th : TreeHyp c Par D keys r) :
    ∃ dp, bfsDepths c (keys.length + 1) [(r, 0)] [] = some dp ∧
      ∀ y ∈ keys, dictGet? dp y = some (D y) := by
  refine bfs_run th (keys.length + 1) [(r, 0)] [] ?_ (by simp)
  constructor
  · simp
  · simp
  · intro q hq
    rcases List.mem_cons.mp hq with hq | hq
    · subst hq
      exact ⟨th.rootMem, th.rootDepth.symm, by simp⟩
    · simp at hq
  · intro y hy
    simp at hy
  · intro y hy
    simp at hy
  · exact Or.inr (by simp)
  · intro y hy z hPz hz
    simp at hz
  · intro z hz y hy
    constructor
    · intro hc
      simp only [List.map_cons, List.map_nil, List.mem_singleton] at hc
      subst hc
      exact child_ne_root th hy rfl
    · simp

end BfsTreeRun

theorem buildParents_value (spans : List RawSpan)
    (h0 : ∀ s ∈ spans, s.nodeIdField = none)
    (hnd : (validNodeIds spans).Nodup) (s : RawSpan) (nid : String)
    (hs : s ∈ spans) (hnid : nidOf? s = some nid) :
    dictGet? (buildParents spans) nid = some (resolveParent s) := by
  rw [buildParents_get]
  have hs1 : stage1Map s ∈ buildPostSpans spans := by
    rw [buildPostSpans_eq]
    exact List.mem_map_of_mem _ hs
  have hp1 : procNid (stage1Map s) = some nid := by
    rw [procNid_stage1Map s (h0 s hs), hnid]
  have hnd1 : (procNodeIds (buildPostSpans spans)).Nodup := by
    rw [procNodeIds_post spans h0]
    exact hnd
  rw [lastResolved_unique _ hnd1 _ nid hs1 hp1, resolveParent_stage1Map]

theorem buildChildren_keys_mem (spans : List RawSpan) (x : String) :
    x ∈ dictKeys (buildChildren spans) ↔ x ∈ validNodeIds spans := by
  rw [buildChildren, stage2Result, stage2Go_children_keys]
  rw [← dictMem_iff_mem_keys, dictMem]
  rw [childrenInit_get]
  by_cases hx : x ∈ validNodeIds spans <;> simp [hx]

theorem childAppends_sublist (x : String) (l : List RawSpan) :
    (childAppends x l).Sublist (procNodeIds l) := by
  induction l with
  | nil => exact List.Sublist.refl _
  | cons t rest ih =>
    rw [childAppends_cons, procNodeIds_cons]
    cases hp : procNid t with
    | none => exact ih
    | some nid =>
      show (if resolveParent t = some x ∧ x ≠ "" then
          nid :: childAppends x rest
        else childAppends x rest).Sublist (nid :: procNodeIds rest)
      by_cases hc : resolveParent t = some x ∧ x ≠ ""
      · rw [if_pos hc]
        exact List.Sublist.cons₂ nid ih
      · rw [if_neg hc]
        exact List.Sublist.cons nid ih

theorem childAppends_nodup (x : String) (l : List RawSpan)
    (hnd : (procNodeIds l).Nodup) : (childAppends x l).Nodup :=
  (childAppends_sublist x l).nodup hnd

theorem mem_procNodeIds (l : List RawSpan) (y : String) :
    y ∈ procNodeIds l ↔ ∃ s ∈ l, procNid s = some y := by
  rw [procNodeIds, List.mem_filterMap]

/-- The tree hypotheses hold for the dicts `_build_span_records` computes,
when the raw spans have distinct node ids and satisfy the single-rooted
tree conditions stated on `resolveParent`. -/
theorem build_treeHyp (spans : List RawSpan) (D : String → Nat) (r : String)
    (h0 : ∀ s ∈ spans, s.nodeIdField = none)
    (hnd : (validNodeIds spans).Nodup)
    (hr : r ∈ validNodeIds spans)
    (hDr : D r = 0)
    (hroots : ∀ s ∈ spans, ∀ nid, nidOf? s = some nid →
      ((resolveParent s = none ∨
        ∃ p, resolveParent s = some p ∧ p ∉ validNodeIds spans) ↔ nid = r))
    (hstep : ∀ s ∈ spans, ∀ nid, nidOf? s = some nid → nid ≠ r →
      ∃ x ∈ validNodeIds spans, resolveParent s = some x ∧
        D nid = D x + 1) :
    TreeHyp (buildChildren spans)
      (fun y => (dictGet? (buildParents spans) y).getD none)
      D (validNodeIds spans) r := by
  have hnd1 : (procNodeIds (buildPostSpans spans)).Nodup := by
    rw [procNodeIds_post spans h0]
    exact hnd
  have hspan1 : ∀ y, y ∈ validNodeIds spans →
      ∃ s ∈ spans, nidOf? s = some y := by
    intro y hy
    rw [validNodeIds, List.mem_filterMap] at hy
    exact hy
  have hPar : ∀ s ∈ spans, ∀ nid, nidOf? s = some nid →
      (dictGet? (buildParents spans) nid).getD none = resolveParent s := by
    intro s hs nid hnid
    rw [buildParents_value spans h0 hnd s nid hs hnid]
    rfl
  constructor
  · exact hnd
  · exact buildChildren_keys_mem spans
  · intro x hx y
    rw [buildChildren_get, if_pos hx]
    rw [show (some (childAppends x (buildPostSpans spans))).getD [] =
      childAppends x (buildPostSpans spans) from rfl]
    rw [mem_childAppends]
    constructor
    · rintro ⟨s1, hs1, hproc1, hres1, _⟩
      obtain ⟨s, hs, hmap⟩ := (by
        rw [buildPostSpans_eq, List.mem_map] at hs1
        exact hs1 : ∃ s ∈ spans, stage1Map s = s1)
      have hnid : nidOf? s = some y := by
        rw [← procNid_stage1Map s (h0 s hs), hmap, hproc1]
      refine ⟨?_, ?_⟩
      · rw [validNodeIds, List.mem_filterMap]
        exact ⟨s, hs, hnid⟩
      · rw [hPar s hs y hnid, ← resolveParent_stage1Map s, hmap, hres1]
    · rintro ⟨hyk, hPy⟩
      obtain ⟨s, hs, hnid⟩ := hspan1 y hyk
      refine ⟨stage1Map s, ?_, ?_, ?_, ?_⟩
      · rw [buildPostSpans_eq]
        exact List.mem_map_of_mem _ hs
      · rw [procNid_stage1Map s (h0 s hs), hnid]
      · rw [resolveParent_stage1Map, ← hPar s hs y hnid, hPy]
      · exact validNodeIds_ne_empty spans x hx
  · intro x hx
    rw [buildChildren_get, if_pos hx]
    exact childAppends_nodup x (buildPostSpans spans) hnd1
  · exact hr
  · exact hDr
  · intro x hPx
    obtain ⟨s, hs, hnid⟩ := hspan1 r hr
    rw [hPar s hs r hnid] at hPx
    have hcond := (hroots s hs r hnid).mpr rfl
    rcases hcond with h | ⟨p, hp, hpn⟩
    · rw [h] at hPx
      exact absurd hPx (by simp)
    · rw [hp] at hPx
      injection hPx with hPx
      rw [← hPx]
      exact hpn
  · intro y hy hyr
    obtain ⟨s, hs, hnid⟩ := hspan1 y hy
    obtain ⟨x, hx, hres, hD⟩ := hstep s hs y hnid hyr
    exact ⟨x, hx, by rw [hPar s hs y hnid]; exact hres, hD⟩

theorem buildPairs_keys (spans : List RawSpan) :
    dictKeys (buildPairs spans) = validNodeIds spans := by
  rw [buildPairs, dictKeys, List.map_filterMap, validNodeIds]
  congr 1
  funext s
  cases h : nidOf? s <;> simp [h]

theorem mem_buildPairs (spans : List RawSpan) (kv : String × Option String) :
    kv ∈ buildPairs spans ↔
      ∃ s ∈ spans, nidOf? s = some kv.1 ∧ kv.2 = resolveParent s := by
  rw [buildPairs, List.mem_filterMap]
  constructor
  · rintro ⟨s, hs, hmap⟩
    cases hn : nidOf? s with
    | none =>
      rw [hn] at hmap
      exact absurd hmap (by simp)
    | some nid =>
      rw [hn] at hmap
      have hmap2 : some (nid, resolveParent s) = some kv := hmap
      injection hmap2 with hmap2
      subst hmap2
      exact ⟨s, hs, hn, rfl⟩
  · rintro ⟨s, hs, hn, hv⟩
    refine ⟨s, hs, ?_⟩
    rw [hn]
    show some (kv.1, resolveParent s) = some kv
    rw [← hv]

theorem buildParents_eq_pairs (spans : List RawSpan)
    (h0 : ∀ s ∈ spans, s.nodeIdField = none)
    (hnd : (validNodeIds spans).Nodup) :
    buildParents spans = buildPairs spans := by
  rw [buildParents, stage2Result, stage2Go_parents_of_fresh]
  · rw [List.nil_append, buildPostSpans_eq, List.filterMap_map, buildPairs]
    apply List.filterMap_congr
    intro s hs
    simp only [Function.comp_apply]
    rw [procNid_stage1Map s (h0 s hs), resolveParent_stage1Map]
  · rw [procNodeIds_post spans h0]
    exact hnd
  · intro n hn
    simp

theorem filter_keys_single (parents : Dict (Option String))
    (f : String × Option String → Bool) (r : String)
    (hnd : (dictKeys parents).Nodup) (hr : r ∈ dictKeys parents)
    (hiff : ∀ kv ∈ parents, (f kv = true ↔ kv.1 = r)) :
    (parents.filter f).map Prod.fst = [r] := by
  induction parents with
  | nil => simp at hr
  | cons kv rest ih =>
    simp only [dictKeys_cons, List.nodup_cons] at hnd
    by_cases hk : kv.1 = r
    · have hf : f kv = true := (hiff kv (List.mem_cons_self _ _)).mpr hk
      rw [List.filter_cons_of_pos hf]
      have hrest : rest.filter f = [] := by
        rw [List.eq_nil_iff_forall_not_mem]
        intro kv2 hkv2
        rw [List.mem_filter] at hkv2
        have h1 : kv2.1 = r :=
          (hiff kv2 (List.mem_cons_of_mem _ hkv2.1)).mp hkv2.2
        rw [hk] at hnd
        exact hnd.1 (h1 ▸ List.mem_map_of_mem Prod.fst hkv2.1)
      rw [hrest]
      simp [hk]
    · have hf : ¬ f kv = true :=
        fun hc => hk ((hiff kv (List.mem_cons_self _ _)).mp hc)
      rw [List.filter_cons_of_neg (by simpa using hf)]
      refine ih hnd.2 ?_ ?_
      · rcases List.mem_cons.mp hr with h | h
        · exact absurd h.symm hk
        · exact h
      · intro kv2 hkv2
        exact hiff kv2 (List.mem_cons_of_mem _ hkv2)

theorem buildRoots_single (spans : List RawSpan) (r : String)
    (h0 : ∀ s ∈ spans, s.nodeIdField = none)
    (hnd : (validNodeIds spans).Nodup)
    (hr : r ∈ validNodeIds spans)
    (hroots : ∀ s ∈ spans, ∀ nid, nidOf? s = some nid →
      ((resolveParent s = none ∨
        ∃ p, resolveParent s = some p ∧ p ∉ validNodeIds spans) ↔ nid = r)) :
    buildRoots spans = [r] := by
  rw [buildRoots, rootsOf, buildParents_eq_pairs spans h0 hnd]
  apply filter_keys_single
  · rw [buildPairs_keys]
    exact hnd
  · rw [buildPairs_keys]
    exact hr
  · intro kv hkv
    rw [mem_buildPairs] at hkv
    obtain ⟨s, hs, hn, hv⟩ := hkv
    have hiff2 := hroots s hs kv.1 hn
    cases hv2 : kv.2 with
    | none =>
      have hres : resolveParent s = none := by rw [← hv, hv2]
      simp only [hv2]
      constructor
      · intro _
        exact hiff2.mp (Or.inl hres)
      · intro _
        trivial
    | some p =>
      have hres : resolveParent s = some p := by rw [← hv, hv2]
      simp only [hv2]
      constructor
      · intro hb
        refine hiff2.mp (Or.inr ⟨p, hres, ?_⟩)
        simp only [Bool.not_eq_true'] at hb
        intro hc
        rw [(buildNodes_mem spans p).mpr hc] at hb
        exact Bool.noConfusion hb
      · intro hb
        have hcond := hiff2.mpr hb
        rcases hcond with h | ⟨q, hq, hqn⟩
        · rw [h] at hres
          exact absurd hres (by simp)
        · rw [hq] at hres
          injection hres with hres
          subst hres
          simp only [Bool.not_eq_true']
          rcases Bool.eq_false_or_eq_true (dictMem (buildNodes spans) q) with h | h
          · exact absurd ((buildNodes_mem spans q).mp h) hqn
          · exact h

/-! ## Claim C4 -/

/-- C4: if a raw span set forms a single rooted tree — distinct node
identifiers, exactly one span whose resolved parent is absent or unknown
(the root `r`), and a distance function `D` witnessing that every other
span's resolved parent is a known node one level up — then
`_build_span_records` (run with enough fuel for the tree) returns exactly
the root list `[r]` and assigns every node the depth `D`, its graph
distance from the root.  The spec's three-span example instantiates this
in the witness. -/
theorem claim_C4 (spans : List RawSpan) (D : String → Nat) (r : String)
    (h0 : ∀ s ∈ spans, s.nodeIdField = none)
    (hnd : (validNodeIds spans).Nodup)
    (hr : r ∈ validNodeIds spans)
    (hDr : D r = 0)
    (hroots : ∀ s ∈ spans, ∀ nid, nidOf? s = some nid →
      ((resolveParent s = none ∨
        ∃ p, resolveParent s = some p ∧ p ∉ validNodeIds spans) ↔ nid = r))
    (hstep : ∀ s ∈ spans, ∀ nid, nidOf? s = some nid → nid ≠ r →
      ∃ x ∈ validNodeIds spans, resolveParent s = some x ∧
        D nid = D x + 1) :
    ∃ recs, buildSpanRecords ((validNodeIds spans).length + 1) spans =
      some (recs, [r]) ∧
      recs.map SpanRecord.node_id = validNodeIds spans ∧
      ∀ rec ∈ recs, rec.depth = D rec.node_id := by
  have th := build_treeHyp spans D r h0 hnd hr hDr hroots hstep
  obtain ⟨dp, hdp, hprop⟩ := bfs_tree th
  have hroots1 : buildRoots spans = [r] :=
    buildRoots_single spans r h0 hnd hr hroots
  refine ⟨stage4 (buildParents spans) (buildChildren spans) dp
    (buildPostSpans spans), ?_, ?_, ?_⟩
  · rw [buildSpanRecords, hroots1]
    rw [show ([r].map (fun x => (x, 0))) = [(r, 0)] from rfl]
    rw [hdp]
  · rw [stage4_node_ids, procNodeIds_post spans h0]
  · intro rec hrec
    rw [mem_stage4] at hrec
    obtain ⟨s, hs, nid, hproc, hmk⟩ := hrec
    have hnidv : nid ∈ validNodeIds spans := by
      rw [← procNodeIds_post spans h0, mem_procNodeIds]
      exact ⟨s, hs, hproc⟩
    have hni : rec.node_id = nid := by rw [hmk]; rfl
    have hdepth : rec.depth = (dictGet? dp nid).getD 0 := by rw [hmk]; rfl
    rw [hni, hdepth, hprop nid hnidv]
    rfl

/-- Witness for C4 at the spec's three-span example: the tree hypotheses
hold with root `A:0` and distances 0/1/2, and the build returns exactly
the claimed nodes, parents, depths and root list. -/
theorem claim_C4_witness :
    (∃ recs, buildSpanRecords 4 exampleSpans = some (recs, ["A:0"]) ∧
      recs.map SpanRecord.node_id = validNodeIds exampleSpans ∧
      ∀ rec ∈ recs, rec.depth = exampleDepth rec.node_id) ∧
    (buildSpanRecords 4 exampleSpans).map (fun pr =>
      (pr.1.map (fun rec => (rec.node_id, rec.parent_node_id, rec.depth)),
        pr.2)) =
      some ([("A:0", none, 0), ("A:1", some "A:0", 1),
        ("B:0", some "A:1", 2)], ["A:0"]) := by
  constructor
  · have h := claim_C4 exampleSpans exampleDepth "A:0"
      (by decide) (by decide) (by decide) (by decide)
      ?hroots ?hstep
    case hroots =>
      intro s hs nid hnid
      fin_cases hs
      · have h2 : some "A:0" = some nid := hnid
        injection h2 with h2
        subst h2
        decide
      · have h2 : some "A:1" = some nid := hnid
        injection h2 with h2
        subst h2
        decide
      · have h2 : some "B:0" = some nid := hnid
        injection h2 with h2
        subst h2
        decide
    case hstep =>
      intro s hs nid hnid hne
      fin_cases hs
      · have h2 : some "A:0" = some nid := hnid
        injection h2 with h2
        subst h2
        exact absurd rfl hne
      · have h2 : some "A:1" = some nid := hnid
        injection h2 with h2
        subst h2
        exact ⟨"A:0", by decide, by decide, by decide⟩
      · have h2 : some "B:0" = some nid := hnid
        injection h2 with h2
        subst h2
        exact ⟨"A:1", by decide, by decide, by decide⟩
    have hlen : (validNodeIds exampleSpans).length + 1 = 4 := by decide
    rw [hlen] at h
    exact h
  · rfl
